import Mathlib

/-!
Verification development for the DSMV signal-processing firmware
(SpectralProcessingDSMV / LockIn sketches for the Teensy 4.0 DSMV board).

The firmware's numeric code is shallowly embedded here:
`float`/`double` values are modelled as exact rationals (ℚ), machine
integers (`int`, `int32_t`, `int64_t`) as ℤ with the C++ operators made
explicit (`Int.tdiv` for C++ `/` on integers, which truncates toward
zero; `Int.fdiv _ (2^k)` for the arithmetic right shift `>> k`), and the
mutable global state of each sketch as an explicit state record threaded
through the step functions.  The bit pattern of a stored `float` is
abstracted as a parameter `f32 : ℚ → ℕ` (the machine's float32
representation); the byte-extraction macros `LBYTE`/`HBYTE`/`H2BYTE`/
`H3BYTE` read byte `k` of that little-endian 32-bit pattern.
-/

namespace DSMV

/-- Signal type sent to the PC (`signalVoltage` / `signalRaw` in the sketch). -/
inductive SignalType where
  | voltage : SignalType
  | raw : SignalType
deriving DecidableEq

/-- Resolution of the AD4020 (`RES_AD4020` in the sketch), as an exact rational. -/
def RES_AD4020 : ℚ := 0.0000190734863

/-- Configuration read by `spectralRead`: the globals `oversamples`,
`signalType`, `bufLen`, `gainAD4020`, `offsetAD4020` of
`SpectralProcessingDSMV.ino`. -/
structure SpectralCfg where
  oversamples : ℤ
  signalType : SignalType
  bufLen : ℤ
  gainAD4020 : ℚ
  offsetAD4020 : ℚ
deriving DecidableEq

/-- Mutable state of the spectral capture path: the globals `sumAD4020`,
`samples`, `sampleStart`, `bufPos`, `full`, `request`, `voltageAD4020` of
`SpectralProcessingDSMV.ino`, plus a log of the byte stores performed on
`bufAD4020` (position, byte value). -/
structure SpectralState where
  sumAD4020 : ℤ
  samples : ℤ
  sampleStart : Bool
  bufPos : ℤ
  full : Bool
  request : Bool
  voltageAD4020 : ℚ
  writes : List (ℤ × ℕ)
deriving DecidableEq

/-- Byte `k` of the little-endian 32-bit pattern `w` (the `LBYTE`/`HBYTE`/
`H2BYTE`/`H3BYTE` macros of the T4 library read bytes 0..3 of the stored
word on the little-endian Teensy). -/
def byteOf (w k : ℕ) : ℕ := w / 2 ^ (8 * k) % 256

/-- The four byte stores `bufAD4020[bufPos..bufPos+3] = LBYTE..H3BYTE(v)`
performed when a sample record is appended. -/
def storeBytes (p : ℤ) (w : ℕ) : List (ℤ × ℕ) :=
  [(p, byteOf w 0), (p + 1, byteOf w 1), (p + 2, byteOf w 2), (p + 3, byteOf w 3)]

/-- The `switch(signalType)` conversion applied to the averaged sum:
`signalVoltage` performs offset and gain correction, `signalRaw` stores the
mean unscaled. -/
def sigTransform (cfg : SpectralCfg) (m : ℤ) : ℚ :=
  match cfg.signalType with
  | SignalType.voltage => RES_AD4020 * cfg.gainAD4020 * (m : ℚ) + cfg.offsetAD4020
  | SignalType.raw => (m : ℚ)

/-- One invocation of the interrupt routine `spectralRead()` of
`SpectralProcessingDSMV.ino` (spectral mode), fed the raw AD4020 value
`val`.  Returns the new state and the value stored to the buffer this
tick, if any.  `f32` is the machine's float32 bit pattern of the stored
voltage. -/
def spectralRead (f32 : ℚ → ℕ) (cfg : SpectralCfg) (st : SpectralState) (val : ℤ) :
    SpectralState × Option ℚ :=
  if st.full then (st, none)
  else if st.sampleStart then
    ({ st with sumAD4020 := 0, sampleStart := false }, none)
  else if st.samples + 1 ≥ cfg.oversamples then
    ({ st with sumAD4020 := 0, samples := 0,
               voltageAD4020 := sigTransform cfg (Int.tdiv (st.sumAD4020 + val) cfg.oversamples),
               writes := st.writes ++
                 storeBytes st.bufPos
                   (f32 (sigTransform cfg (Int.tdiv (st.sumAD4020 + val) cfg.oversamples))),
               bufPos := st.bufPos + 4,
               full := decide (st.bufPos + 4 ≥ cfg.bufLen) },
      some (sigTransform cfg (Int.tdiv (st.sumAD4020 + val) cfg.oversamples)))
  else
    ({ st with sumAD4020 := st.sumAD4020 + val, samples := st.samples + 1 }, none)

/-- Iterated `spectralRead` over a list of raw ADC values, collecting the
stored values in order. -/
def spectralRun (f32 : ℚ → ℕ) (cfg : SpectralCfg) (st : SpectralState) :
    List ℤ → SpectralState × List ℚ
  | [] => (st, [])
  | v :: vs =>
      let p := spectralRead f32 cfg st v
      let r := spectralRun f32 cfg p.1 vs
      (r.1, p.2.toList ++ r.2)

/-- The service-loop function `sendDataToPC()`: if the buffers are full it
resets the write cursor, marks the next sample as stale, and either
discards the data (no request pending) or transmits the buffer
(`T4sw(bufAD4020, bufLen)`) and clears the request.  The transmission is
returned as the write log together with the transmitted length. -/
def sendDataToPC (cfg : SpectralCfg) (st : SpectralState) :
    SpectralState × Option (List (ℤ × ℕ) × ℤ) :=
  if !st.full then (st, none) else
  if !st.request then
    ({ st with bufPos := 0, sampleStart := true, full := false }, none)
  else
    ({ st with bufPos := 0, sampleStart := true, full := false, request := false },
      some (st.writes, cfg.bufLen))

/-- Maximum length of the data buffers in bytes (`maxLen = 4*32768`). -/
def maxLen : ℤ := 4 * 32768

/-- Effect of the `set dataSize` command on `bufLen`:
`bufLen = min(4*command.toInt(), maxLen)`.  The multiplication happens in
the Teensy's 32-bit `long` and the `min` macro compares it against the
`uint32_t` ceiling after the usual conversion to unsigned, so the product
enters as its unsigned 32-bit value `(4*n) % 2^32`; for `4*n ≥ 2^31` the
product has already wrapped. -/
def setDataSize (n : ℤ) : ℤ := min ((4 * n) % 2 ^ 32) maxLen

/-- The final state after a completed oversampling block starting at `st`:
sum and counter reset, the transformed mean `v` stored as a 4-byte record
at the write cursor, the cursor advanced by 4, and the full flag raised
exactly when the cursor reached `bufLen`. -/
def blockFinal (f32 : ℚ → ℕ) (cfg : SpectralCfg) (st : SpectralState) (v : ℚ) : SpectralState :=
  { st with sumAD4020 := 0, samples := 0, voltageAD4020 := v,
            writes := st.writes ++ storeBytes st.bufPos (f32 v),
            bufPos := st.bufPos + 4,
            full := decide (st.bufPos + 4 ≥ cfg.bufLen) }

theorem spectralRun_cons (f32 : ℚ → ℕ) (cfg : SpectralCfg) (st : SpectralState) (v : ℤ)
    (vs : List ℤ) :
    spectralRun f32 cfg st (v :: vs) =
      ((spectralRun f32 cfg (spectralRead f32 cfg st v).1 vs).1,
        (spectralRead f32 cfg st v).2.toList ++
          (spectralRun f32 cfg (spectralRead f32 cfg st v).1 vs).2) := rfl

theorem spectralRead_acc (f32 : ℚ → ℕ) (cfg : SpectralCfg) (st : SpectralState) (v : ℤ)
    (hfull : st.full = false) (hstart : st.sampleStart = false)
    (hth : ¬ st.samples + 1 ≥ cfg.oversamples) :
    spectralRead f32 cfg st v =
      ({ st with sumAD4020 := st.sumAD4020 + v, samples := st.samples + 1 }, none) := by
  simp [spectralRead, hfull, hstart, hth]

theorem spectralRead_emit (f32 : ℚ → ℕ) (cfg : SpectralCfg) (st : SpectralState) (v : ℤ)
    (hfull : st.full = false) (hstart : st.sampleStart = false)
    (hth : st.samples + 1 ≥ cfg.oversamples) :
    spectralRead f32 cfg st v =
      (blockFinal f32 cfg st
          (sigTransform cfg (Int.tdiv (st.sumAD4020 + v) cfg.oversamples)),
        some (sigTransform cfg (Int.tdiv (st.sumAD4020 + v) cfg.oversamples))) := by
  simp [spectralRead, hfull, hstart, hth, blockFinal]

theorem spectralRun_block (f32 : ℚ → ℕ) (cfg : SpectralCfg) :
    ∀ (vs : List ℤ) (st : SpectralState),
      st.full = false → st.sampleStart = false → vs ≠ [] →
      st.samples + vs.length = cfg.oversamples →
      spectralRun f32 cfg st vs =
        (blockFinal f32 cfg st
            (sigTransform cfg (Int.tdiv (st.sumAD4020 + vs.sum) cfg.oversamples)),
          [sigTransform cfg (Int.tdiv (st.sumAD4020 + vs.sum) cfg.oversamples)]) := by
  intro vs
  induction vs with
  | nil => intro st _ _ hne _; exact absurd rfl hne
  | cons v rest ih =>
    intro st hfull hstart _ hlen
    cases rest with
    | nil =>
      have hth : st.samples + 1 ≥ cfg.oversamples := by
        simp only [List.length_cons, List.length_nil] at hlen; omega
      rw [spectralRun_cons, spectralRead_emit f32 cfg st v hfull hstart hth]
      simp [spectralRun]
    | cons w ws =>
      have hth : ¬ st.samples + 1 ≥ cfg.oversamples := by
        simp only [List.length_cons] at hlen; push_cast at hlen; omega
      rw [spectralRun_cons, spectralRead_acc f32 cfg st v hfull hstart hth]
      rw [ih { st with sumAD4020 := st.sumAD4020 + v, samples := st.samples + 1 }
        (by simp [hfull]) (by simp [hstart]) (by simp)
        (by simp only [List.length_cons] at hlen ⊢; push_cast at hlen ⊢; omega)]
      cases st
      simp [blockFinal, add_assoc]

theorem spectralRun_append (f32 : ℚ → ℕ) (cfg : SpectralCfg) :
    ∀ (as bs : List ℤ) (st : SpectralState),
      spectralRun f32 cfg st (as ++ bs) =
        ((spectralRun f32 cfg (spectralRun f32 cfg st as).1 bs).1,
          (spectralRun f32 cfg st as).2 ++ (spectralRun f32 cfg (spectralRun f32 cfg st as).1 bs).2) := by
  intro as
  induction as with
  | nil => intro bs st; rfl
  | cons a as ih =>
    intro bs st
    rw [List.cons_append, spectralRun_cons, spectralRun_cons, ih]
    simp [List.append_assoc]

/-- Helper: a full fill cycle of `m` complete oversampling blocks from a
reset accumulator state: `m` values are stored (4 bytes each), the cursor
advances by `4*m`, and the full flag is raised exactly when the cursor
reaches `bufLen`. -/
theorem spectralRun_fill (f32 : ℚ → ℕ) (cfg : SpectralCfg) (hN : 1 ≤ cfg.oversamples) :
    ∀ (m : ℕ) (vss : List ℤ) (st : SpectralState),
      st.full = false → st.sampleStart = false → st.samples = 0 → st.sumAD4020 = 0 →
      vss.length = m * cfg.oversamples.toNat →
      st.bufPos + 4 * m ≤ cfg.bufLen →
      (spectralRun f32 cfg st vss).2.length = m ∧
      (spectralRun f32 cfg st vss).1.writes.length = st.writes.length + 4 * m ∧
      (spectralRun f32 cfg st vss).1.bufPos = st.bufPos + 4 * m ∧
      ((spectralRun f32 cfg st vss).1.full = true ↔ (st.bufPos + 4 * m = cfg.bufLen ∧ 1 ≤ m)) ∧
      (spectralRun f32 cfg st vss).1.samples = 0 ∧
      (spectralRun f32 cfg st vss).1.sumAD4020 = 0 ∧
      (spectralRun f32 cfg st vss).1.sampleStart = false := by
  intro m
  induction m with
  | zero =>
    intro vss st hfull hstart hsam hsum hlen _
    have : vss = [] := List.eq_nil_of_length_eq_zero (by simpa using hlen)
    subst this
    simp [spectralRun, hfull, hstart, hsam, hsum]
  | succ k ih =>
    intro vss st hfull hstart hsam hsum hlen hbd
    have hNn : 1 ≤ cfg.oversamples.toNat := by omega
    have hlen1 : cfg.oversamples.toNat ≤ vss.length := by
      rw [hlen]; calc cfg.oversamples.toNat = 1 * cfg.oversamples.toNat := (one_mul _).symm
        _ ≤ (k + 1) * cfg.oversamples.toNat := Nat.mul_le_mul_right _ (by omega)
    have hsplit : vss = vss.take cfg.oversamples.toNat ++ vss.drop cfg.oversamples.toNat :=
      (List.take_append_drop _ _).symm
    have htk : (vss.take cfg.oversamples.toNat).length = cfg.oversamples.toNat :=
      List.length_take_of_le hlen1
    have hne : vss.take cfg.oversamples.toNat ≠ [] := by
      intro h; rw [h] at htk; simp at htk; omega
    have hblk := spectralRun_block f32 cfg (vss.take cfg.oversamples.toNat) st hfull hstart hne
      (by rw [htk, hsam]; omega)
    rw [hsplit, spectralRun_append, hblk]
    have hdp : (vss.drop cfg.oversamples.toNat).length = k * cfg.oversamples.toNat := by
      rw [List.length_drop, hlen]; ring_nf; omega
    set v := sigTransform cfg (Int.tdiv (st.sumAD4020 + (vss.take cfg.oversamples.toNat).sum)
      cfg.oversamples) with hv
    by_cases hk : k = 0
    · subst hk
      have hdn : vss.drop cfg.oversamples.toNat = [] :=
        List.eq_nil_of_length_eq_zero (by simpa using hdp)
      rw [hdn]
      simp only [spectralRun]
      refine ⟨by simp, ?_, ?_, ?_, by simp [blockFinal], by simp [blockFinal],
        by simp [blockFinal, hstart]⟩
      · simp [blockFinal, storeBytes]
      · simp only [blockFinal]; push_cast; omega
      · simp only [blockFinal]
        constructor
        · intro h
          have := of_decide_eq_true h
          refine ⟨by push_cast; omega, by omega⟩
        · intro _
          exact decide_eq_true (by push_cast at hbd ⊢; omega)
    · have hmid : st.bufPos + 4 < cfg.bufLen := by push_cast at hbd; omega
      have hfl : (blockFinal f32 cfg st v).full = false := by
        simp only [blockFinal]
        exact decide_eq_false (by omega)
      have hrec := ih (vss.drop cfg.oversamples.toNat) (blockFinal f32 cfg st v)
        hfl (by simp [blockFinal, hstart]) (by simp [blockFinal]) (by simp [blockFinal]) hdp
        (by simp only [blockFinal]; push_cast at hbd ⊢; omega)
      refine ⟨?_, ?_, ?_, ?_, hrec.2.2.2.2.1, hrec.2.2.2.2.2.1, hrec.2.2.2.2.2.2⟩
      · simp only [List.length_append, hrec.1, List.length_singleton]
        omega
      · rw [hrec.2.1]
        simp only [blockFinal, List.length_append, storeBytes, List.length_cons, List.length_nil]
        omega
      · rw [hrec.2.2.1]
        simp only [blockFinal]
        push_cast
        omega
      · rw [hrec.2.2.2.1]
        simp only [blockFinal]
        constructor
        · intro h
          obtain ⟨h1, h2⟩ := h
          refine ⟨by push_cast at h1 ⊢; omega, by omega⟩
        · intro h
          obtain ⟨h1, h2⟩ := h
          refine ⟨by push_cast at h1 ⊢; omega, by omega⟩

/-- C1: for every oversample factor `N ≥ 1` and every sequence of raw ADC
folds, the accumulator produces exactly one output per `N` counted folds,
equal to the truncated integer mean `sum/N` transformed by the active
signal-type selector, and it resets the sum and counter afterwards; the
first fold after a host transfer (`sampleStart` set) is discarded
unconditionally: it produces no output, does not increment the counter,
and its raw value never contributes to any returned mean (the single
output of the resume run depends only on the `N` following folds). -/
theorem C1_accumulator_fold (f32 : ℚ → ℕ) (cfg : SpectralCfg) (st : SpectralState)
    (hN : 1 ≤ cfg.oversamples) (hfull : st.full = false) :
    (st.sampleStart = true → ∀ v : ℤ,
      spectralRead f32 cfg st v = ({ st with sumAD4020 := 0, sampleStart := false }, none)) ∧
    (st.sampleStart = true → st.samples = 0 → ∀ (v : ℤ) (vs : List ℤ),
      vs.length = cfg.oversamples.toNat →
      spectralRun f32 cfg st (v :: vs) =
        (blockFinal f32 cfg { st with sumAD4020 := 0, sampleStart := false }
            (sigTransform cfg (Int.tdiv vs.sum cfg.oversamples)),
          [sigTransform cfg (Int.tdiv vs.sum cfg.oversamples)])) ∧
    (st.sampleStart = false → st.samples = 0 → st.sumAD4020 = 0 → ∀ vs : List ℤ,
      vs.length = cfg.oversamples.toNat →
      spectralRun f32 cfg st vs =
        (blockFinal f32 cfg st (sigTransform cfg (Int.tdiv vs.sum cfg.oversamples)),
          [sigTransform cfg (Int.tdiv vs.sum cfg.oversamples)])) := by
  refine ⟨?_, ?_, ?_⟩
  · intro hstart v
    simp [spectralRead, hfull, hstart]
  · intro hstart hsam v vs hlen
    rw [spectralRun_cons]
    have hdisc : spectralRead f32 cfg st v =
        ({ st with sumAD4020 := 0, sampleStart := false }, none) := by
      simp [spectralRead, hfull, hstart]
    rw [hdisc]
    have hne : vs ≠ [] := by
      intro h; rw [h] at hlen; simp at hlen; omega
    have hblk := spectralRun_block f32 cfg vs { st with sumAD4020 := 0, sampleStart := false }
      (by simp [hfull]) (by simp) hne (by simp [hsam, hlen]; omega)
    rw [hblk]
    simp
  · intro hstart hsam hsum vs hlen
    have hne : vs ≠ [] := by
      intro h; rw [h] at hlen; simp at hlen; omega
    have hblk := spectralRun_block f32 cfg vs st hfull hstart hne
      (by rw [hsam, hlen]; omega)
    rw [hblk, hsum]
    simp

/-- Witness for C1: oversample factor 2, raw signal type, resume state;
the discarded first fold (value 9) never contributes, and the single
output of the following two folds 5, 7 is the truncated mean 6. -/
theorem C1_accumulator_fold_witness :
    spectralRun (fun _ => 0) ⟨2, SignalType.raw, 400, 1, 0⟩
        ⟨0, 0, true, 0, false, false, 0, []⟩ [9, 5, 7] =
      (⟨0, 0, false, 4, false, false, 6, [(0, 0), (1, 0), (2, 0), (3, 0)]⟩, [6]) := by
  have h := (C1_accumulator_fold (fun _ => 0) ⟨2, SignalType.raw, 400, 1, 0⟩
    ⟨0, 0, true, 0, false, false, 0, []⟩ (by decide) (by decide)).2.1 (by decide) (by decide)
    9 [5, 7] (by decide)
  rw [h]
  decide

/-- C10: the reported oversample mean is the integer quotient of the
64-bit sum by `N` truncated toward zero (C++ `int64_t` division,
`Int.tdiv`), never a rounded or floating-point mean; in particular, for
`|sum| < N` the truncated quotient is 0, so in raw mode the reported
value is exactly 0. -/
theorem C10_truncated_mean (f32 : ℚ → ℕ) (cfg : SpectralCfg) :
    (∀ (st : SpectralState) (v : ℤ), st.full = false → st.sampleStart = false →
      st.samples + 1 ≥ cfg.oversamples →
      (spectralRead f32 cfg st v).2 =
        some (sigTransform cfg (Int.tdiv (st.sumAD4020 + v) cfg.oversamples))) ∧
    (∀ s N : ℤ, 0 < N → s.natAbs < N.natAbs → Int.tdiv s N = 0) ∧
    (∀ (st : SpectralState) (v : ℤ), cfg.signalType = SignalType.raw →
      st.full = false → st.sampleStart = false → st.samples + 1 ≥ cfg.oversamples →
      0 < cfg.oversamples → (st.sumAD4020 + v).natAbs < cfg.oversamples.natAbs →
      (spectralRead f32 cfg st v).2 = some 0) := by
  have htd : ∀ s N : ℤ, 0 < N → s.natAbs < N.natAbs → Int.tdiv s N = 0 := by
    intro s N _ habs
    have h1 : (Int.tdiv s N).natAbs = s.natAbs / N.natAbs := Int.natAbs_tdiv s N
    have h2 : s.natAbs / N.natAbs = 0 := Nat.div_eq_of_lt habs
    exact Int.natAbs_eq_zero.mp (h1.trans h2)
  refine ⟨?_, htd, ?_⟩
  · intro st v hfull hstart hth
    rw [spectralRead_emit f32 cfg st v hfull hstart hth]
  · intro st v hraw hfull hstart hth _ habs
    rw [spectralRead_emit f32 cfg st v hfull hstart hth, htd _ _ (by omega) habs]
    simp [sigTransform, hraw]

/-- Witness for C10: oversample factor 3, accumulated sum -2 (nonzero,
absolute value below 3): the emitted raw-mode value is exactly 0. -/
theorem C10_truncated_mean_witness :
    (spectralRead (fun _ => 0) ⟨3, SignalType.raw, 400, 1, 0⟩
        ⟨-1, 2, false, 0, false, false, 0, []⟩ (-1)).2 = some 0 :=
  (C10_truncated_mean (fun _ => 0) ⟨3, SignalType.raw, 400, 1, 0⟩).2.2
    ⟨-1, 2, false, 0, false, false, 0, []⟩ (-1) rfl (by decide) (by decide) (by decide)
    (by decide) (by decide)

/-- C4: while the buffer is full the producer tick returns immediately and
stores nothing; the write cursor only ever stays or advances by 4 within
the tick (it is reset only by the consumer hand-off `sendDataToPC`, which
sets it to 0); from a reset accumulator state, writing `m` complete
records (with `bufPos + 4*m ≤ bufLen`) appends exactly `4*m` bytes and
raises the full flag exactly when the cursor reaches `bufLen` — i.e.
writing exactly `bufLen` bytes sets the Ready flag exactly once per fill
cycle. -/
theorem C4_buffer_fill (f32 : ℚ → ℕ) (cfg : SpectralCfg) :
    (∀ (st : SpectralState) (v : ℤ), st.full = true →
      spectralRead f32 cfg st v = (st, none)) ∧
    (∀ (st : SpectralState) (v : ℤ),
      (spectralRead f32 cfg st v).1.bufPos = st.bufPos ∨
      (spectralRead f32 cfg st v).1.bufPos = st.bufPos + 4) ∧
    (∀ (st : SpectralState) (v : ℤ),
      (spectralRead f32 cfg st v).1.writes = st.writes ∨
      ∃ w, (spectralRead f32 cfg st v).1.writes = st.writes ++ storeBytes st.bufPos w) ∧
    (∀ st : SpectralState, st.full = true → (sendDataToPC cfg st).1.bufPos = 0) ∧
    (1 ≤ cfg.oversamples →
      ∀ (m : ℕ) (vss : List ℤ) (st : SpectralState),
      st.full = false → st.sampleStart = false → st.samples = 0 → st.sumAD4020 = 0 →
      vss.length = m * cfg.oversamples.toNat →
      st.bufPos + 4 * m ≤ cfg.bufLen →
      (spectralRun f32 cfg st vss).1.writes.length = st.writes.length + 4 * m ∧
      ((spectralRun f32 cfg st vss).1.full = true ↔
        (st.bufPos + 4 * m = cfg.bufLen ∧ 1 ≤ m))) := by
  refine ⟨?_, ?_, ?_, ?_, ?_⟩
  · intro st v hfull
    simp [spectralRead, hfull]
  · intro st v
    unfold spectralRead
    split
    · left; rfl
    · split
      · left; rfl
      · split
        · right; rfl
        · left; rfl
  · intro st v
    unfold spectralRead
    split
    · left; rfl
    · split
      · left; rfl
      · split
        · right; exact ⟨_, rfl⟩
        · left; rfl
  · intro st hfull
    simp only [sendDataToPC, hfull, Bool.not_true, Bool.false_eq_true, if_false]
    split
    · rfl
    · rfl
  · intro hN m vss st hfull hstart hsam hsum hlen hbd
    have h := spectralRun_fill f32 cfg hN m vss st hfull hstart hsam hsum hlen hbd
    exact ⟨h.2.1, h.2.2.2.1⟩

/-- Witness for C4: a 8-byte buffer (2 records), oversample factor 1: two
complete records append 8 bytes and set the full flag exactly at the end;
a tick on the full buffer is the identity; the hand-off resets the cursor. -/
theorem C4_buffer_fill_witness :
    (spectralRead (fun _ => 0) ⟨1, SignalType.raw, 8, 1, 0⟩
        ⟨0, 0, false, 8, true, false, 0, []⟩ 5 =
      (⟨0, 0, false, 8, true, false, 0, []⟩, none)) ∧
    ((spectralRun (fun _ => 0) ⟨1, SignalType.raw, 8, 1, 0⟩
        ⟨0, 0, false, 0, false, false, 0, []⟩ [3, 4]).1.writes.length = 0 + 4 * 2 ∧
      ((spectralRun (fun _ => 0) ⟨1, SignalType.raw, 8, 1, 0⟩
        ⟨0, 0, false, 0, false, false, 0, []⟩ [3, 4]).1.full = true ↔
        ((0 : ℤ) + 4 * 2 = 8 ∧ 1 ≤ 2))) := by
  have h := C4_buffer_fill (fun _ => 0) ⟨1, SignalType.raw, 8, 1, 0⟩
  exact ⟨h.1 ⟨0, 0, false, 8, true, false, 0, []⟩ 5 (by decide),
    h.2.2.2.2 (by decide) 2 [3, 4] ⟨0, 0, false, 0, false, false, 0, []⟩
      (by decide) (by decide) (by decide) (by decide) (by decide) (by decide)⟩

/-- C5: when a buffer becomes full and the consumer has not issued a pull
request, the content is discarded — write position reset, stale-sample
flag set, full flag cleared, no transmission; the buffer is transmitted
(`T4sw(bufAD4020, bufLen)`) if and only if a request was pending, and the
transmission clears the request flag; the producer tick is never stalled
by an undrained buffer (it returns immediately while `full` holds). -/
theorem C5_backpressure_drop (f32 : ℚ → ℕ) (cfg : SpectralCfg) :
    (∀ st : SpectralState, st.full = false → sendDataToPC cfg st = (st, none)) ∧
    (∀ st : SpectralState, st.full = true → st.request = false →
      sendDataToPC cfg st =
        ({ st with bufPos := 0, sampleStart := true, full := false }, none)) ∧
    (∀ st : SpectralState, st.full = true → st.request = true →
      sendDataToPC cfg st =
        ({ st with bufPos := 0, sampleStart := true, full := false, request := false },
          some (st.writes, cfg.bufLen))) ∧
    (∀ (st : SpectralState) (v : ℤ), st.full = true →
      spectralRead f32 cfg st v = (st, none)) := by
  refine ⟨?_, ?_, ?_, ?_⟩
  · intro st hfull
    simp [sendDataToPC, hfull]
  · intro st hfull hreq
    simp [sendDataToPC, hfull, hreq]
  · intro st hfull hreq
    simp [sendDataToPC, hfull, hreq]
  · intro st v hfull
    simp [spectralRead, hfull]

/-- Witness for C5: a full buffer with no pending request is discarded
without transmission; with a pending request it is transmitted and the
request flag cleared. -/
theorem C5_backpressure_drop_witness :
    (sendDataToPC ⟨1, SignalType.raw, 4, 1, 0⟩ ⟨0, 0, false, 4, true, false, 0, [(0, 7)]⟩ =
      (⟨0, 0, true, 0, false, false, 0, [(0, 7)]⟩, none)) ∧
    (sendDataToPC ⟨1, SignalType.raw, 4, 1, 0⟩ ⟨0, 0, false, 4, true, true, 0, [(0, 7)]⟩ =
      (⟨0, 0, true, 0, false, false, 0, [(0, 7)]⟩, some ([(0, 7)], 4))) := by
  have h := C5_backpressure_drop (fun _ => 0) ⟨1, SignalType.raw, 4, 1, 0⟩
  refine ⟨?_, ?_⟩
  · rw [h.2.1 ⟨0, 0, false, 4, true, false, 0, [(0, 7)]⟩ (by decide) (by decide)]
  · rw [h.2.2.1 ⟨0, 0, false, 4, true, true, 0, [(0, 7)] ⟩ (by decide) (by decide)]

/-- C9 (amended): each stored sample record is exactly 4 contiguous
bytes, least significant byte first (little-endian 32-bit: the four
bytes reconstruct any 32-bit word); the write cursor advances in steps
of 4; and for every requested sample count whose quadrupled value fits
the 32-bit `long` (`4*n < 2^31`), the `set dataSize` command sets
`bufLen = min(4*n, maxLen)` with the fixed ceiling `maxLen = 4*32768`
bytes; the configured length never exceeds that ceiling.  (For larger
counts the 32-bit multiply has already wrapped, as the counterexample
shows.) -/
theorem C9_record_format (f32 : ℚ → ℕ) (cfg : SpectralCfg) :
    (∀ (p : ℤ) (w : ℕ), storeBytes p w =
      [(p, byteOf w 0), (p + 1, byteOf w 1), (p + 2, byteOf w 2), (p + 3, byteOf w 3)]) ∧
    (∀ w k : ℕ, byteOf w k < 256) ∧
    (∀ w : ℕ, w < 2 ^ 32 →
      byteOf w 0 + 256 * byteOf w 1 + 256 ^ 2 * byteOf w 2 + 256 ^ 3 * byteOf w 3 = w) ∧
    (∀ (st : SpectralState) (v : ℤ),
      (spectralRead f32 cfg st v).1.bufPos = st.bufPos ∨
      (spectralRead f32 cfg st v).1.bufPos = st.bufPos + 4) ∧
    (maxLen = 4 * 32768) ∧
    (∀ n : ℤ, 0 ≤ n → 4 * n < 2 ^ 31 → setDataSize n = min (4 * n) (4 * 32768)) ∧
    (∀ n : ℤ, setDataSize n ≤ 4 * 32768) := by
  refine ⟨fun p w => rfl, ?_, ?_, ?_, rfl, ?_, ?_⟩
  · intro w k
    exact Nat.mod_lt _ (by norm_num)
  · intro w hw
    simp only [byteOf]
    norm_num
    omega
  · intro st v
    unfold spectralRead
    split
    · left; rfl
    · split
      · left; rfl
      · split
        · right; rfl
        · left; rfl
  · intro n h0 h1
    unfold setDataSize maxLen
    rw [Int.emod_eq_of_lt (by omega) (by omega)]
  · intro n
    exact min_le_right _ _

/-- Witness for C9: the word `0x01020304` is stored as the bytes
4, 3, 2, 1 at consecutive positions, and a data-size request of 100000
samples (no 32-bit overflow) is clamped to the 131072-byte ceiling. -/
theorem C9_record_format_witness :
    storeBytes 0 16909060 = [(0, 4), (1, 3), (2, 2), (3, 1)] ∧
    byteOf 16909060 0 + 256 * byteOf 16909060 1 + 256 ^ 2 * byteOf 16909060 2 +
      256 ^ 3 * byteOf 16909060 3 = 16909060 ∧
    setDataSize 100000 = min (4 * 100000) (4 * 32768) ∧
    setDataSize 100000 ≤ 4 * 32768 := by
  have h := C9_record_format (fun _ => 0) ⟨1, SignalType.raw, 4, 1, 0⟩
  exact ⟨by decide, h.2.2.1 16909060 (by norm_num),
    h.2.2.2.2.2.1 100000 (by norm_num) (by norm_num), h.2.2.2.2.2.2 100000⟩

/-- C9 counterexample (to the clamp claim without an overflow bound): a
requested count of `2^30` samples makes the 32-bit `long` product
`4 * 2^30` wrap to 0, so the program sets `bufLen = 0` — not the clamped
value `min(4*2^30, maxLen) = 131072` the claim asserts for every
requested size. -/
theorem C9_counterexample :
    setDataSize (2 ^ 30) = 0 ∧ min (4 * 2 ^ 30 : ℤ) (4 * 32768) = 131072 ∧
    (0 : ℤ) ≠ 131072 := by
  refine ⟨by decide, by decide, by decide⟩

/-! ## Scale filter (`scale.h`): `proc_scale` float and integer overloads -/

/-- Float overload of `proc_scale`: `y_n = factor * x_n`, the factor being
`props[0]`. -/
def proc_scale (value : ℚ) (prop0 : ℚ) : ℚ := value * prop0

/-- Arithmetic right shift `x >> k` on a machine integer: floor division
by `2^k` (two's-complement arithmetic shift). -/
def asr (x : ℤ) (k : ℕ) : ℤ := Int.fdiv x (2 ^ k)

/-- Two's-complement wraparound of a 64-bit signed machine integer: the
value the `int64_t` product actually holds, reduced into
`[-2^63, 2^63)`. -/
def wrap64 (z : ℤ) : ℤ := (z + 2 ^ 63) % 2 ^ 64 - 2 ^ 63

/-- Integer overload of `proc_scale`: `(value * props[0]) >> 32`, where
`props[0]` holds the amplification factor multiplied by `2^32`.  The
multiplication is performed in `int64_t`, so the product wraps at
`2^63`. -/
def proc_scaleInt (value : ℤ) (prop0 : ℤ) : ℤ := asr (wrap64 (value * prop0)) 32

theorem wrap64_eq (z : ℤ) (h1 : -(2 ^ 63) ≤ z) (h2 : z < 2 ^ 63) : wrap64 z = z := by
  unfold wrap64
  rw [Int.emod_eq_of_lt (by omega) (by omega)]
  omega

/-- C8 (amended): the Scale filter's float path returns exactly `k*x` (so
factor 2 on `[0.1, 0.2, -0.3]` yields `[0.2, 0.4, -0.6]` exactly), and
the integer path returns `(x * k_fixed) >> 32` with the product wrapped
by the `int64_t` multiplication; when the product fits in `int64`
(`|x * k_fixed| < 2^63`), with `k_fixed = ⌊k * 2^32⌋` and `|x| ≤ 2^32`,
that value is within integer-truncation rounding (error below 2 units:
one from truncating `k` to `k_fixed`, one from the final shift) of
`k*x`.  (Without the no-overflow bound the rounding claim fails, as the
counterexample shows.) -/
theorem C8_scale :
    (∀ x k : ℚ, proc_scale x k = k * x) ∧
    ([0.1, 0.2, -0.3].map (fun x => proc_scale x 2) = [0.2, 0.4, -0.6]) ∧
    (∀ x kf : ℤ, proc_scaleInt x kf = Int.fdiv (wrap64 (x * kf)) (2 ^ 32)) ∧
    (∀ (x kf : ℤ) (k : ℚ), kf = ⌊k * 2 ^ 32⌋ → |(x : ℚ)| ≤ 2 ^ 32 →
      |x * kf| < 2 ^ 63 → |((proc_scaleInt x kf : ℤ) : ℚ) - k * x| < 2) := by
  refine ⟨fun x k => mul_comm x k, by norm_num [proc_scale], fun x kf => rfl, ?_⟩
  intro x kf k hkf hx hno
  have hwrap : wrap64 (x * kf) = x * kf :=
    wrap64_eq _ (le_of_lt (abs_lt.mp hno).1) (abs_lt.mp hno).2
  rw [show proc_scaleInt x kf = Int.fdiv (x * kf) (2 ^ 32) from by
    rw [proc_scaleInt, asr, hwrap]]
  have hD : (0 : ℚ) < 2 ^ 32 := by positivity
  have hDZ : (0 : ℤ) < 2 ^ 32 := by positivity
  set q : ℤ := Int.fdiv (x * kf) (2 ^ 32) with hq
  set r : ℤ := Int.fmod (x * kf) (2 ^ 32) with hr
  have hdm : (2 ^ 32 : ℤ) * q + r = x * kf := Int.fdiv_add_fmod (x * kf) (2 ^ 32)
  have hr0 : (0 : ℤ) ≤ r := Int.fmod_nonneg' (x * kf) hDZ
  have hr1 : r < 2 ^ 32 := Int.fmod_lt_of_pos (x * kf) hDZ
  have hcast : (2 ^ 32 : ℚ) * (q : ℚ) + (r : ℚ) = (x : ℚ) * (kf : ℚ) := by
    exact_mod_cast congrArg (fun z : ℤ => (z : ℚ)) hdm
  have hkf1 : (kf : ℚ) ≤ k * 2 ^ 32 := by rw [hkf]; exact Int.floor_le _
  have hkf2 : k * 2 ^ 32 < (kf : ℚ) + 1 := by rw [hkf]; exact Int.lt_floor_add_one _
  have hxle : -(2 ^ 32 : ℚ) ≤ (x : ℚ) ∧ (x : ℚ) ≤ 2 ^ 32 := abs_le.mp hx
  have hrQ0 : (0 : ℚ) ≤ (r : ℚ) := by exact_mod_cast hr0
  have hrQ1 : (r : ℚ) < 2 ^ 32 := by exact_mod_cast hr1
  have key : ((q : ℚ) - k * x) * 2 ^ 32 = (x : ℚ) * ((kf : ℚ) - k * 2 ^ 32) - r := by
    have : (q : ℚ) * 2 ^ 32 = (x : ℚ) * kf - r := by linarith [hcast]
    nlinarith [this]
  have he0 : (0 : ℚ) ≤ k * 2 ^ 32 - (kf : ℚ) := by linarith
  have he1 : k * 2 ^ 32 - (kf : ℚ) < 1 := by linarith
  have hup : (x : ℚ) * ((kf : ℚ) - k * 2 ^ 32) ≤ 2 ^ 32 * (k * 2 ^ 32 - kf) := by
    nlinarith [hxle.1, hxle.2, he0]
  have hlo : -(2 ^ 32 * (k * 2 ^ 32 - (kf : ℚ))) ≤ (x : ℚ) * ((kf : ℚ) - k * 2 ^ 32) := by
    nlinarith [hxle.1, hxle.2, he0]
  have hbound : (2 ^ 32 : ℚ) * (k * 2 ^ 32 - kf) < 2 ^ 32 := by nlinarith [he1]
  rw [abs_lt]
  constructor
  · have h2 : -(2 : ℚ) * 2 ^ 32 < ((q : ℚ) - k * x) * 2 ^ 32 := by
      rw [key]; nlinarith [hlo, hbound, hrQ1]
    nlinarith [h2, hD]
  · have h2 : ((q : ℚ) - k * x) * 2 ^ 32 < 2 * 2 ^ 32 := by
      rw [key]; nlinarith [hup, hbound, hrQ0]
    nlinarith [h2, hD]

/-- Witness for C8: factor `k = 3/2` pre-scaled to `k_fixed = 3*2^31`; on
input 10 the integer path returns 15, within 2 of `k*x = 15`. -/
theorem C8_scale_witness :
    proc_scale (1 / 10) 2 = 2 * (1 / 10) ∧
    |((proc_scaleInt 10 6442450944 : ℤ) : ℚ) - 3 / 2 * 10| < 2 := by
  refine ⟨C8_scale.1 (1 / 10) 2, ?_⟩
  have hfl : (6442450944 : ℤ) = ⌊(3 / 2 : ℚ) * 2 ^ 32⌋ := by
    have : (3 / 2 : ℚ) * 2 ^ 32 = ((6442450944 : ℤ) : ℚ) := by norm_num
    rw [this, Int.floor_intCast]
  exact C8_scale.2.2.2 10 6442450944 (3 / 2) hfl (by norm_num) (by norm_num)

/-- C8 counterexample (to the claim without an overflow bound): with
factor `k = 2` pre-scaled to `k_fixed = 2^33 = ⌊2 * 2^32⌋` and the
representable input `x = 2^31 - 1` (`|x| ≤ 2^32`), the `int64_t`
product `x * k_fixed = 2^64 - 2^33` wraps to `-2^33`, so the integer
path returns `-2` — nowhere near `k*x = 2^32 - 2`.  The within-rounding
claim therefore fails at in-range program inputs once the product
overflows `int64`. -/
theorem C8_counterexample :
    ((2 ^ 33 : ℤ) = ⌊(2 : ℚ) * 2 ^ 32⌋) ∧
    |((2 ^ 31 - 1 : ℤ) : ℚ)| ≤ 2 ^ 32 ∧
    proc_scaleInt (2 ^ 31 - 1) (2 ^ 33) = -2 ∧
    ¬ |(((-2 : ℤ)) : ℚ) - 2 * ((2 ^ 31 - 1 : ℤ) : ℚ)| < 2 := by
  refine ⟨?_, by norm_num, by decide, ?_⟩
  · have : (2 : ℚ) * 2 ^ 32 = ((2 ^ 33 : ℤ) : ℚ) := by norm_num
    rw [this, Int.floor_intCast]
  · rw [show (((-2 : ℤ)) : ℚ) - 2 * ((2 ^ 31 - 1 : ℤ) : ℚ) = -(2 ^ 32) by push_cast; ring,
      abs_neg, abs_of_pos (by norm_num)]
    norm_num

/-! ## Moving-average filter

Two variants exist in the repository: the standalone sketch's
`proc_avg(float value, int samples)` which clamps the averaging count to
`[1, Nmax]`, and the property-array variant `proc_avg(float value,
float props[])` of `avg.h` which iterates `i < props[0]` with no clamping
at all. -/

/-- Ring-buffer capacity of the moving-average filter (`Nmax = 256`). -/
def avgNmax : ℤ := 256

/-- First clamp of the standalone `proc_avg`:
`if(samples > Nmax) samples = Nmax`. -/
def avgClampHigh (s : ℤ) : ℤ := if s > avgNmax then avgNmax else s

/-- Both clamps of the standalone `proc_avg`: after the high clamp,
`if(samples <= 0) samples = 1`. -/
def avgClamp (s : ℤ) : ℤ := if avgClampHigh s ≤ 0 then 1 else avgClampHigh s

/-- Ring-buffer index used by both `proc_avg` variants for loop index `i`:
`idbuffer-i` if nonnegative, else `Nmax+(idbuffer-i)` (explicit wrap
check, no modulo). -/
def avgIdx (idb i : ℤ) : ℤ := if idb - i ≥ 0 then idb - i else avgNmax + (idb - i)

/-- Sum of the last `n` ring-buffer slots as read by `proc_avg`. -/
def avgSum (dbuf : ℤ → ℚ) (idb : ℤ) (n : ℕ) : ℚ :=
  ((List.range n).map (fun i : ℕ => dbuf (avgIdx idb (i : ℤ)))).sum

/-- The standalone (clamped) `proc_avg`: store the value, average the last
`samples` (clamped) slots. -/
def proc_avg_clamped (dbuf : ℤ → ℚ) (idb : ℤ) (value : ℚ) (samples : ℤ) : ℚ :=
  avgSum (Function.update dbuf idb value) idb (avgClamp samples).toNat / ((avgClamp samples : ℤ) : ℚ)

/-- Number of iterations of `for(int i=0; i<props[0]; i++)` with a float
bound: the count of naturals `i` with `i < props[0]`. -/
def avgIters (p0 : ℚ) : ℕ := if p0 ≤ 0 then 0 else ⌈p0⌉.toNat

/-- The property-array (unclamped) `proc_avg` of `avg.h`: no clamping of
`props[0]`; the sum runs over `avgIters props[0]` slots and is divided by
`props[0]` itself. -/
def proc_avg_props (dbuf : ℤ → ℚ) (idb : ℤ) (value : ℚ) (p0 : ℚ) : ℚ :=
  avgSum (Function.update dbuf idb value) idb (avgIters p0) / p0

/-- The `idbuffer` advance shared by both variants:
`idbuffer++; if(idbuffer>=Nmax) idbuffer = 0`. -/
def avgAdvance (idb : ℤ) : ℤ := if idb + 1 ≥ avgNmax then 0 else idb + 1

/-- C6 counterexample: the property-array `proc_avg` (the variant invoked
with `filterProperties`) performs no clamping: with requested count
`props[0] = 258 > Nmax` and `idbuffer = 0` the loop reaches iteration
`i = 257` and computes the out-of-bounds ring index `-1`; and with
`props[0] = 0` the loop body never runs and `avg /= props[0]` divides by
zero.  This refutes the claim that every requested averaging count is
clamped to `[1, Nmax]` before summing. -/
theorem C6_counterexample :
    257 < avgIters 258 ∧ avgIdx 0 257 = -1 ∧
    ¬ (0 ≤ avgIdx 0 257 ∧ avgIdx 0 257 < avgNmax) ∧ avgIters 0 = 0 := by
  have hceil : ⌈(258 : ℚ)⌉ = 258 := by norm_num
  have hit : avgIters 258 = 258 := by
    rw [avgIters, if_neg (by norm_num), hceil]
    rfl
  refine ⟨by rw [hit]; norm_num, by decide, by decide, by simp [avgIters]⟩

/-- C6 (amended): the standalone `proc_avg(float, int)` variant clamps the
averaging count to `[1, Nmax]` before summing, so its division is by a
nonzero count and, for any in-range `idbuffer`, every ring-buffer index
it reads lies within `[0, Nmax-1]`.  (The property-array variant of
`avg.h` has no such clamp, as the counterexample shows.) -/
theorem C6_clamped_safety (s idb : ℤ) (h0 : 0 ≤ idb) (h1 : idb < avgNmax) :
    1 ≤ avgClamp s ∧ avgClamp s ≤ avgNmax ∧ ((avgClamp s : ℤ) : ℚ) ≠ 0 ∧
    (∀ i : ℤ, 0 ≤ i → i < avgClamp s → 0 ≤ avgIdx idb i ∧ avgIdx idb i < avgNmax) := by
  have hc : 1 ≤ avgClamp s ∧ avgClamp s ≤ avgNmax := by
    unfold avgClamp avgClampHigh avgNmax
    split <;> split <;> simp_all <;> omega
  refine ⟨hc.1, hc.2, ?_, ?_⟩
  · have : (1 : ℤ) ≤ avgClamp s := hc.1
    intro h
    have : (avgClamp s : ℤ) = 0 := by exact_mod_cast h
    omega
  · intro i hi0 hi1
    have hiN : i < avgNmax := lt_of_lt_of_le hi1 hc.2
    unfold avgIdx avgNmax at *
    split <;> omega

/-- Witness for C6: requested count 1000 with `idbuffer = 17` is clamped
to 256 and the index read at `i = 255` stays inside the buffer. -/
theorem C6_clamped_safety_witness :
    1 ≤ avgClamp 1000 ∧ avgClamp 1000 ≤ avgNmax ∧ ((avgClamp 1000 : ℤ) : ℚ) ≠ 0 ∧
    0 ≤ avgIdx 17 255 ∧ avgIdx 17 255 < avgNmax := by
  have h := C6_clamped_safety 1000 17 (by decide) (by decide)
  have h2 := h.2.2.2 255 (by decide) (by decide)
  exact ⟨h.1, h.2.1, h.2.2.1, h2.1, h2.2⟩

/-! ## Programmable IIR filter (`iir.h` variants and the lock-in `proc_iir`)

Three `proc_iir` variants exist in the repository.  All keep input history
`xnhist` and output history `ynhist` (capacity `Niirmax = 200`) and
coefficient tables `bn` (length `Nb`) and `an` (length `Na`, `an[0] = 1`
unused).  They differ in where the new input is latched relative to the
`b_0` term and in the shift/multiply order inside the loops. -/

/-- Downward for-loop: `downTo f n a` applies `f` at indices
`n, n-1, ..., 1` (the idiom `for(int i = n; i > 0; i--)`). -/
def downTo {α : Type} (f : ℕ → α → α) : ℕ → α → α
  | 0, a => a
  | n + 1, a => downTo f n (f (n + 1) a)

/-- Loop body `y += c[i]*h[i]; h[i] = h[i-1]` (multiply the old entry,
then shift). -/
def mulShiftStep (c : ℕ → ℚ) (i : ℕ) (s : ℚ × (ℕ → ℚ)) : ℚ × (ℕ → ℚ) :=
  (s.1 + c i * s.2 i, Function.update s.2 i (s.2 (i - 1)))

/-- Loop body `h[i] = h[i-1]; y += c[i]*h[i]` (shift, then multiply the
freshly shifted entry, i.e. the old `h[i-1]`). -/
def shiftMulStep (c : ℕ → ℚ) (i : ℕ) (s : ℚ × (ℕ → ℚ)) : ℚ × (ℕ → ℚ) :=
  (s.1 + c i * s.2 (i - 1), Function.update s.2 i (s.2 (i - 1)))

/-- Scalar multiplication on the two-channel values of the lock-in
`proc_iir`. -/
def smulP (c : ℚ) (a : ℚ × ℚ) : ℚ × ℚ := (c * a.1, c * a.2)

/-- Two-channel version of `shiftMulStep`. -/
def shiftMulStepP (c : ℕ → ℚ) (i : ℕ) (s : (ℚ × ℚ) × (ℕ → ℚ × ℚ)) :
    (ℚ × ℚ) × (ℕ → ℚ × ℚ) :=
  (s.1 + smulP (c i) (s.2 (i - 1)), Function.update s.2 i (s.2 (i - 1)))

/-- The `proc_iir` of `iir.h` lines 39-62 (the post-fix Exercise07-11
variant): multiply-then-shift over the `b` taps, then
`xnhist[0] = xn; yn += bn[0]*xn`, then multiply-then-shift over the `a`
taps, `yn -= an[1]*ynhist[0]`, and finally `ynhist[0] = yn`.  Returns
(output, new `xnhist`, new `ynhist`). -/
def iirV1 (bn an : ℕ → ℚ) (Nb Na : ℕ) (xh yh : ℕ → ℚ) (x : ℚ) :
    ℚ × (ℕ → ℚ) × (ℕ → ℚ) :=
  let p := downTo (mulShiftStep bn) (min 200 Nb - 1) (0, xh)
  let q := downTo (mulShiftStep (fun k => -(an (k + 1)))) (min 200 Na - 2) (p.1 + bn 0 * x, yh)
  (q.1 - an 1 * q.2 0, Function.update p.2 0 x, Function.update q.2 0 (q.1 - an 1 * q.2 0))

/-- The `proc_iir` of `iir.h` lines 114-137 (the pre-fix variant):
multiply-then-shift over the `b` taps, then `yn += bn[0]*xnhist[0]`
**before** `xnhist[0] = xn` — the `b_0` tap multiplies the previous
input — then shift-then-multiply over the `a` taps. -/
def iirV3 (bn an : ℕ → ℚ) (Nb Na : ℕ) (xh yh : ℕ → ℚ) (x : ℚ) :
    ℚ × (ℕ → ℚ) × (ℕ → ℚ) :=
  let p := downTo (mulShiftStep bn) (min 200 Nb - 1) (0, xh)
  let q := downTo (shiftMulStep (fun k => -(an (k + 1)))) (min 200 Na - 2)
    (p.1 + bn 0 * p.2 0, yh)
  (q.1 - an 1 * q.2 0, Function.update p.2 0 x, Function.update q.2 0 (q.1 - an 1 * q.2 0))

/-- The two-channel `proc_iir` of the lock-in sketch (part_007 lines
60-92): shift-then-multiply over the `b` taps, then
`xnhist[0] = xn; yn += bn[0]*xnhist[0]`, shift-then-multiply over the `a`
taps, `yn -= an[1]*ynhist[0]`, finally `ynhist[0] = yn`. -/
def iirP7 (bn an : ℕ → ℚ) (Nb Na : ℕ) (xh yh : ℕ → ℚ × ℚ) (x : ℚ × ℚ) :
    (ℚ × ℚ) × (ℕ → ℚ × ℚ) × (ℕ → ℚ × ℚ) :=
  let p := downTo (shiftMulStepP bn) (min 200 Nb - 1) ((0, 0), xh)
  let q := downTo (shiftMulStepP (fun k => -(an (k + 1)))) (min 200 Na - 2)
    (p.1 + smulP (bn 0) x, yh)
  (q.1 - smulP (an 1) (q.2 0), Function.update p.2 0 x,
    Function.update q.2 0 (q.1 - smulP (an 1) (q.2 0)))

theorem downTo_mulShift (c : ℕ → ℚ) :
    ∀ (m : ℕ) (y0 : ℚ) (h : ℕ → ℚ),
      downTo (mulShiftStep c) m (y0, h) =
        (y0 + ∑ i ∈ Finset.Icc 1 m, c i * h i,
          fun j => if 1 ≤ j ∧ j ≤ m then h (j - 1) else h j) := by
  intro m
  induction m with
  | zero =>
    intro y0 h
    refine Prod.ext ?_ ?_
    · show y0 = y0 + ∑ i ∈ Finset.Icc 1 0, c i * h i
      rw [Finset.Icc_eq_empty (by omega), Finset.sum_empty, add_zero]
    · funext j
      show h j = if 1 ≤ j ∧ j ≤ 0 then h (j - 1) else h j
      rw [if_neg (by omega)]
  | succ m ih =>
    intro y0 h
    show downTo (mulShiftStep c) m (mulShiftStep c (m + 1) (y0, h)) = _
    rw [mulShiftStep, ih]
    refine Prod.ext ?_ ?_
    · show y0 + c (m + 1) * h (m + 1) +
        (∑ i ∈ Finset.Icc 1 m, c i * Function.update h (m + 1) (h m) i) = _
      rw [Finset.sum_congr rfl (fun i hi => by
        rw [Function.update_noteq (by simp at hi; omega) _ h])]
      rw [Finset.sum_Icc_succ_top (by omega : 1 ≤ m + 1)]
      ring
    · funext j
      show (if 1 ≤ j ∧ j ≤ m then Function.update h (m + 1) (h m) (j - 1)
          else Function.update h (m + 1) (h m) j) =
        if 1 ≤ j ∧ j ≤ m + 1 then h (j - 1) else h j
      by_cases h1 : 1 ≤ j ∧ j ≤ m
      · rw [if_pos h1, if_pos (by omega)]
        exact Function.update_noteq (by omega) _ h
      · by_cases h2 : j = m + 1
        · subst h2
          rw [if_neg h1, if_pos (by omega), Function.update_same]
          congr 1
        · rw [if_neg h1, if_neg (by omega)]
          exact Function.update_noteq (by omega) _ h

theorem downTo_shiftMul (c : ℕ → ℚ) :
    ∀ (m : ℕ) (y0 : ℚ) (h : ℕ → ℚ),
      downTo (shiftMulStep c) m (y0, h) =
        (y0 + ∑ i ∈ Finset.Icc 1 m, c i * h (i - 1),
          fun j => if 1 ≤ j ∧ j ≤ m then h (j - 1) else h j) := by
  intro m
  induction m with
  | zero =>
    intro y0 h
    refine Prod.ext ?_ ?_
    · show y0 = y0 + ∑ i ∈ Finset.Icc 1 0, c i * h (i - 1)
      rw [Finset.Icc_eq_empty (by omega), Finset.sum_empty, add_zero]
    · funext j
      show h j = if 1 ≤ j ∧ j ≤ 0 then h (j - 1) else h j
      rw [if_neg (by omega)]
  | succ m ih =>
    intro y0 h
    show downTo (shiftMulStep c) m (shiftMulStep c (m + 1) (y0, h)) = _
    rw [shiftMulStep, ih]
    refine Prod.ext ?_ ?_
    · show y0 + c (m + 1) * h (m + 1 - 1) +
        (∑ i ∈ Finset.Icc 1 m, c i * Function.update h (m + 1) (h m) (i - 1)) = _
      rw [Finset.sum_congr rfl (fun i hi => by
        rw [Function.update_noteq (by simp at hi; omega) _ h])]
      rw [Finset.sum_Icc_succ_top (by omega : 1 ≤ m + 1)]
      ring
    · funext j
      show (if 1 ≤ j ∧ j ≤ m then Function.update h (m + 1) (h m) (j - 1)
          else Function.update h (m + 1) (h m) j) =
        if 1 ≤ j ∧ j ≤ m + 1 then h (j - 1) else h j
      by_cases h1 : 1 ≤ j ∧ j ≤ m
      · rw [if_pos h1, if_pos (by omega)]
        exact Function.update_noteq (by omega) _ h
      · by_cases h2 : j = m + 1
        · subst h2
          rw [if_neg h1, if_pos (by omega), Function.update_same]
          congr 1
        · rw [if_neg h1, if_neg (by omega)]
          exact Function.update_noteq (by omega) _ h

theorem downTo_shiftMulP (c : ℕ → ℚ) :
    ∀ (m : ℕ) (y0 : ℚ × ℚ) (h : ℕ → ℚ × ℚ),
      downTo (shiftMulStepP c) m (y0, h) =
        (y0 + ∑ i ∈ Finset.Icc 1 m, smulP (c i) (h (i - 1)),
          fun j => if 1 ≤ j ∧ j ≤ m then h (j - 1) else h j) := by
  intro m
  induction m with
  | zero =>
    intro y0 h
    refine Prod.ext ?_ ?_
    · show y0 = y0 + ∑ i ∈ Finset.Icc 1 0, smulP (c i) (h (i - 1))
      rw [Finset.Icc_eq_empty (by omega), Finset.sum_empty, add_zero]
    · funext j
      show h j = if 1 ≤ j ∧ j ≤ 0 then h (j - 1) else h j
      rw [if_neg (by omega)]
  | succ m ih =>
    intro y0 h
    show downTo (shiftMulStepP c) m (shiftMulStepP c (m + 1) (y0, h)) = _
    rw [shiftMulStepP, ih]
    refine Prod.ext ?_ ?_
    · show y0 + smulP (c (m + 1)) (h (m + 1 - 1)) +
        (∑ i ∈ Finset.Icc 1 m, smulP (c i) (Function.update h (m + 1) (h m) (i - 1))) = _
      rw [Finset.sum_congr rfl (fun i hi => by
        rw [Function.update_noteq (by simp at hi; omega) _ h])]
      rw [Finset.sum_Icc_succ_top (by omega : 1 ≤ m + 1)]
      abel
    · funext j
      show (if 1 ≤ j ∧ j ≤ m then Function.update h (m + 1) (h m) (j - 1)
          else Function.update h (m + 1) (h m) j) =
        if 1 ≤ j ∧ j ≤ m + 1 then h (j - 1) else h j
      by_cases h1 : 1 ≤ j ∧ j ≤ m
      · rw [if_pos h1, if_pos (by omega)]
        exact Function.update_noteq (by omega) _ h
      · by_cases h2 : j = m + 1
        · subst h2
          rw [if_neg h1, if_pos (by omega), Function.update_same]
          congr 1
        · rw [if_neg h1, if_neg (by omega)]
          exact Function.update_noteq (by omega) _ h

theorem smulP_neg (c : ℚ) (a : ℚ × ℚ) : smulP (-c) a = -(smulP c a) := by
  have : -(smulP c a) = (-(c * a.1), -(c * a.2)) := rfl
  rw [this, smulP]
  refine Prod.ext ?_ ?_ <;> ring

/-- C7 (amended): in the `proc_iir` variants of `iir.h` lines 39-62
(`iirV1`) and of the lock-in sketch (`iirP7`), the new input is latched
into the newest input-history slot and contributes via `b_0` to the
current output, and the output becomes the newest output-history entry
only after the full sum of `b`-terms and `a`-terms over the *old*
histories; the pre-fix variant of `iir.h` lines 114-137 (`iirV3`)
instead pairs `b_0` with the previous newest input — its output formula
does not contain the new input `x` at all — and latches the new input
only afterwards. -/
theorem C7_iir_latch_order (bn an : ℕ → ℚ) (Nb Na : ℕ) (xh yh : ℕ → ℚ)
    (xhp yhp : ℕ → ℚ × ℚ) (x : ℚ) (xp : ℚ × ℚ) :
    ((iirV1 bn an Nb Na xh yh x).1 =
        bn 0 * x + (∑ i ∈ Finset.Icc 1 (min 200 Nb - 1), bn i * xh i)
          - (∑ k ∈ Finset.Icc 1 (min 200 Na - 2), an (k + 1) * yh k) - an 1 * yh 0) ∧
    ((iirV1 bn an Nb Na xh yh x).2.1 0 = x) ∧
    ((iirV1 bn an Nb Na xh yh x).2.2 0 = (iirV1 bn an Nb Na xh yh x).1) ∧
    ((iirP7 bn an Nb Na xhp yhp xp).1 =
        smulP (bn 0) xp + (∑ i ∈ Finset.Icc 1 (min 200 Nb - 1), smulP (bn i) (xhp (i - 1)))
          - (∑ k ∈ Finset.Icc 1 (min 200 Na - 2), smulP (an (k + 1)) (yhp (k - 1)))
          - smulP (an 1) (yhp 0)) ∧
    ((iirP7 bn an Nb Na xhp yhp xp).2.1 0 = xp) ∧
    ((iirP7 bn an Nb Na xhp yhp xp).2.2 0 = (iirP7 bn an Nb Na xhp yhp xp).1) ∧
    ((iirV3 bn an Nb Na xh yh x).1 =
        bn 0 * xh 0 + (∑ i ∈ Finset.Icc 1 (min 200 Nb - 1), bn i * xh i)
          - (∑ k ∈ Finset.Icc 1 (min 200 Na - 2), an (k + 1) * yh (k - 1)) - an 1 * yh 0) ∧
    ((iirV3 bn an Nb Na xh yh x).2.1 0 = x) := by
  refine ⟨?_, ?_, ?_, ?_, ?_, ?_, ?_, ?_⟩
  · simp only [iirV1]
    rw [downTo_mulShift, downTo_mulShift]
    simp only
    rw [if_neg (by omega)]
    simp only [neg_mul, Finset.sum_neg_distrib]
    ring
  · simp only [iirV1]
    rw [Function.update_same]
  · simp only [iirV1]
    rw [Function.update_same]
  · simp only [iirP7]
    rw [downTo_shiftMulP, downTo_shiftMulP]
    simp only
    rw [if_neg (by omega)]
    rw [Finset.sum_congr rfl (fun k _ => smulP_neg (an (k + 1)) (yhp (k - 1)))]
    rw [Finset.sum_neg_distrib, Prod.mk_zero_zero]
    abel
  · simp only [iirP7]
    rw [Function.update_same]
  · simp only [iirP7]
    rw [Function.update_same]
  · simp only [iirV3]
    rw [downTo_mulShift, downTo_shiftMul]
    simp only
    rw [if_neg (by omega), if_neg (by omega)]
    simp only [neg_mul, Finset.sum_neg_distrib]
    ring
  · simp only [iirV3]
    rw [Function.update_same]

/-- C7 counterexample: with `Nb = 1`, `Na = 2`, `bn = [1]`, `an = [1, 0]`
and zero histories, feeding the input 1 into the pre-fix variant
(`iir.h` lines 114-137) yields output 0 — the `b_0` tap multiplied the
previous (zero) input — whereas the latch-before-contribute computation
(the post-fix variant on identical coefficients, state and input) yields
`b_0·x = 1`.  This refutes the claim that the latch-before-contribute
ordering holds for every `proc_iir` variant. -/
theorem C7_counterexample :
    (iirV3 (fun _ => 1) (fun _ => 0) 1 2 (fun _ => 0) (fun _ => 0) 1).1 = 0 ∧
    (iirV1 (fun _ => 1) (fun _ => 0) 1 2 (fun _ => 0) (fun _ => 0) 1).1 = 1 ∧
    (0 : ℚ) ≠ 1 := by
  refine ⟨?_, ?_, by norm_num⟩
  · simp [iirV3, downTo, mulShiftStep, shiftMulStep]
  · simp [iirV1, downTo, mulShiftStep]

/-! ## Lock-in FIR filter (`Exercise11/LockIn/fir.h`)

Two-channel FIR filter with six evaluation strategies selected by
`props[4]`: integer/float arithmetic crossed with double-buffer,
if-based-modulo and true-modulo ring access.  Numeric values are modelled
as exact rationals; the machine's `sin`/`cos` and the `PI` constant enter
as parameters `sinQ`, `cosQ`, `piQ`. -/

/-- Truncation of a rational toward zero, the C conversion from a
floating value to an integer type. -/
def truncQ (q : ℚ) : ℤ := Int.tdiv q.num q.den

/-- Window kinds (`rectWin` / `hammingWin`). -/
inductive Win where
  | rect : Win
  | hamming : Win
deriving DecidableEq

/-- The six FIR arithmetic strategies of `fir.h`. -/
inductive FirArith where
  | integerDoubleBuffer : FirArith
  | integerIfModulo : FirArith
  | integerModulo : FirArith
  | floatDoubleBuffer : FirArith
  | floatIfModulo : FirArith
  | floatModulo : FirArith
deriving DecidableEq

/-- `windowfunc`: multiplies a coefficient by the window weight
(`hammingWin`: `0.54 - 0.46*cos(2πi/(Nf-1))`; `rectWin`: identity). -/
def windowfunc (cosQ : ℚ → ℚ) (piQ : ℚ) (hi : ℚ) (i : ℕ) (win : Win) (Nf : ℚ) : ℚ :=
  match win with
  | Win.hamming => hi * (0.54 - 0.46 * cosQ (2 * piQ * i / (Nf - 1)))
  | Win.rect => hi

/-- Digital filter frequency `phi = 2π·f_c/f_p` computed by `init_fir`. -/
def phiOf (piQ f0 f5 : ℚ) : ℚ := 2 * piQ * f0 / f5

/-- Half filter order `Mfilter = (Nfilter-1)/2`. -/
def Mof (Nf : ℕ) : ℕ := (Nf - 1) / 2

/-- Float coefficients produced by `init_fir` for the `FIRlow` case: the
windowed sinc `sin(phi·(i-M))/(π·(i-M))`, with the centre tap overwritten
by `phi/π` after the loop. -/
def firlowCoeff (sinQ cosQ : ℚ → ℚ) (piQ f0 f5 : ℚ) (Nf : ℕ) (win : Win) : ℕ → ℚ :=
  fun i =>
    if i = Mof Nf then phiOf piQ f0 f5 / piQ
    else windowfunc cosQ piQ
      (sinQ (phiOf piQ f0 f5 * (((i : ℤ) - (Mof Nf : ℤ) : ℤ) : ℚ)) /
        (piQ * (((i : ℤ) - (Mof Nf : ℤ) : ℤ) : ℚ))) i win (Nf : ℚ)

/-- Integer coefficients produced by `init_fir` for the `FIRlow` case:
the same values pre-scaled by `2^coeffPrec = 2^9` and truncated to
`int32_t`. -/
def firlowCoeffInt (sinQ cosQ : ℚ → ℚ) (piQ f0 f5 : ℚ) (Nf : ℕ) (win : Win) : ℕ → ℤ :=
  fun i =>
    if i = Mof Nf then truncQ (2 ^ 9 * phiOf piQ f0 f5 / piQ)
    else truncQ (windowfunc cosQ piQ
      (2 ^ 9 * (sinQ (phiOf piQ f0 f5 * (((i : ℤ) - (Mof Nf : ℤ) : ℤ) : ℚ)) /
        (piQ * (((i : ℤ) - (Mof Nf : ℤ) : ℤ) : ℚ)))) i win (Nf : ℚ))

/-- Mutable state of the lock-in FIR filter: the two-channel data buffers
(double length, mirrored) and the ring cursor `fir_bufPos`. -/
structure FirState where
  dataBuffer : ℕ → ℚ × ℚ
  dataBufferInt : ℕ → ℤ × ℤ
  fir_bufPos : ℕ

/-- The double write `dataBuffer[pos] = x; dataBuffer[pos + Nfilter] = x`
that keeps the double-length buffer mirrored. -/
def firWrite {α : Type} (buf : ℕ → α) (pos Nf : ℕ) (x : α) : ℕ → α :=
  Function.update (Function.update buf pos x) (pos + Nf) x

/-- Componentwise integer scaling on the two channels. -/
def smulPZ (c : ℤ) (a : ℤ × ℤ) : ℤ × ℤ := (c * a.1, c * a.2)

/-- Componentwise arithmetic right shift on the two channels. -/
def asrP (a : ℤ × ℤ) (k : ℕ) : ℤ × ℤ := (asr a.1 k, asr a.2 k)

/-- Ring index used by the double-buffer strategies: plain `pos + i`. -/
def firIdxDouble (pos Nf i : ℕ) : ℕ := pos + i

/-- Ring index used by the if-based-modulo strategies. -/
def firIdxIf (pos Nf i : ℕ) : ℕ := if pos + i ≥ Nf then pos + i - Nf else pos + i

/-- Ring index used by the true-modulo strategies. -/
def firIdxMod (pos Nf i : ℕ) : ℕ := (pos + i) % Nf

/-- The float convolution `for(i...) filtered += dataBuffer[idx(i)] * filtercoeff[i]`. -/
def firSumF (buf : ℕ → ℚ × ℚ) (coeff : ℕ → ℚ) (idx : ℕ → ℕ) (Nf : ℕ) : ℚ × ℚ :=
  ((List.range Nf).map (fun i => smulP (coeff i) (buf (idx i)))).sum

/-- The integer convolution over the raw-value buffer. -/
def firSumI (bufI : ℕ → ℤ × ℤ) (coeffI : ℕ → ℤ) (idx : ℕ → ℕ) (Nf : ℕ) : ℤ × ℤ :=
  ((List.range Nf).map (fun i => smulPZ (coeffI i) (bufI (idx i)))).sum

/-- Cast of the two-channel integer result to the returned float pair. -/
def pairQ (a : ℤ × ℤ) : ℚ × ℚ := ((a.1 : ℚ), (a.2 : ℚ))

/-- One invocation of the lock-in `proc_fir`: write the new sample (both
voltage and raw form, mirrored at `pos` and `pos + Nfilter`), advance the
ring cursor, then evaluate the convolution with the strategy selected by
`props[4]`.  Integer strategies store `raw >> (coeffPrec-7) = raw >> 2`
and return the accumulated sum shifted right by 7 — without any
conversion to volts. -/
def proc_fir (arith : FirArith) (Nf : ℕ) (coeff : ℕ → ℚ) (coeffI : ℕ → ℤ)
    (st : FirState) (xn : ℚ × ℚ) (raw : ℤ × ℤ) : FirState × (ℚ × ℚ) :=
  match arith with
  | FirArith.integerDoubleBuffer =>
      (⟨firWrite st.dataBuffer st.fir_bufPos Nf xn,
        firWrite st.dataBufferInt st.fir_bufPos Nf (asrP raw 2), (st.fir_bufPos + 1) % Nf⟩,
       pairQ (asrP (firSumI (firWrite st.dataBufferInt st.fir_bufPos Nf (asrP raw 2)) coeffI
          (firIdxDouble ((st.fir_bufPos + 1) % Nf) Nf) Nf) 7))
  | FirArith.integerIfModulo =>
      (⟨firWrite st.dataBuffer st.fir_bufPos Nf xn,
        firWrite st.dataBufferInt st.fir_bufPos Nf (asrP raw 2), (st.fir_bufPos + 1) % Nf⟩,
       pairQ (asrP (firSumI (firWrite st.dataBufferInt st.fir_bufPos Nf (asrP raw 2)) coeffI
          (firIdxIf ((st.fir_bufPos + 1) % Nf) Nf) Nf) 7))
  | FirArith.integerModulo =>
      (⟨firWrite st.dataBuffer st.fir_bufPos Nf xn,
        firWrite st.dataBufferInt st.fir_bufPos Nf (asrP raw 2), (st.fir_bufPos + 1) % Nf⟩,
       pairQ (asrP (firSumI (firWrite st.dataBufferInt st.fir_bufPos Nf (asrP raw 2)) coeffI
          (firIdxMod ((st.fir_bufPos + 1) % Nf) Nf) Nf) 7))
  | FirArith.floatDoubleBuffer =>
      (⟨firWrite st.dataBuffer st.fir_bufPos Nf xn,
        firWrite st.dataBufferInt st.fir_bufPos Nf (asrP raw 2), (st.fir_bufPos + 1) % Nf⟩,
       firSumF (firWrite st.dataBuffer st.fir_bufPos Nf xn) coeff
          (firIdxDouble ((st.fir_bufPos + 1) % Nf) Nf) Nf)
  | FirArith.floatIfModulo =>
      (⟨firWrite st.dataBuffer st.fir_bufPos Nf xn,
        firWrite st.dataBufferInt st.fir_bufPos Nf (asrP raw 2), (st.fir_bufPos + 1) % Nf⟩,
       firSumF (firWrite st.dataBuffer st.fir_bufPos Nf xn) coeff
          (firIdxIf ((st.fir_bufPos + 1) % Nf) Nf) Nf)
  | FirArith.floatModulo =>
      (⟨firWrite st.dataBuffer st.fir_bufPos Nf xn,
        firWrite st.dataBufferInt st.fir_bufPos Nf (asrP raw 2), (st.fir_bufPos + 1) % Nf⟩,
       firSumF (firWrite st.dataBuffer st.fir_bufPos Nf xn) coeff
          (firIdxMod ((st.fir_bufPos + 1) % Nf) Nf) Nf)

/-- The mirror invariant of the double-length ring buffers: the upper
copy agrees with the lower. -/
def Mirror {α : Type} (Nf : ℕ) (buf : ℕ → α) : Prop :=
  ∀ j, j < Nf → buf (j + Nf) = buf j

theorem firWrite_mirror {α : Type} (buf : ℕ → α) (pos Nf : ℕ) (x : α)
    (hpos : pos < Nf) (hm : Mirror Nf buf) : Mirror Nf (firWrite buf pos Nf x) := by
  intro j hj
  unfold firWrite
  by_cases hjp : j = pos
  · subst hjp
    rw [Function.update_same, Function.update_noteq (by omega), Function.update_same]
  · rw [Function.update_noteq (by omega), Function.update_noteq (by omega),
      Function.update_noteq (by omega), Function.update_noteq hjp]
    exact hm j hj

theorem mirror_idx {α : Type} (Nf pos i : ℕ) (buf : ℕ → α) (hm : Mirror Nf buf)
    (hpos : pos < Nf) (hi : i < Nf) :
    buf (firIdxDouble pos Nf i) = buf (firIdxMod pos Nf i) ∧
    buf (firIdxIf pos Nf i) = buf (firIdxMod pos Nf i) := by
  unfold firIdxDouble firIdxIf firIdxMod
  by_cases h : pos + i ≥ Nf
  · have h1 : pos + i - Nf < Nf := by omega
    have h2 : (pos + i) % Nf = pos + i - Nf := by
      rw [Nat.mod_eq_sub_mod h, Nat.mod_eq_of_lt h1]
    rw [h2, if_pos h]
    have h3 : pos + i = (pos + i - Nf) + Nf := by omega
    exact ⟨(congrArg buf h3).trans (hm _ h1), rfl⟩
  · have h2 : (pos + i) % Nf = pos + i := Nat.mod_eq_of_lt (by omega)
    rw [h2, if_neg h]
    exact ⟨rfl, rfl⟩

theorem firSumF_congr (buf : ℕ → ℚ × ℚ) (coeff : ℕ → ℚ) (idx1 idx2 : ℕ → ℕ) (Nf : ℕ)
    (h : ∀ i, i < Nf → buf (idx1 i) = buf (idx2 i)) :
    firSumF buf coeff idx1 Nf = firSumF buf coeff idx2 Nf := by
  unfold firSumF
  congr 1
  apply List.map_congr_left
  intro i hi
  rw [h i (List.mem_range.mp hi)]

theorem firSumI_congr (bufI : ℕ → ℤ × ℤ) (coeffI : ℕ → ℤ) (idx1 idx2 : ℕ → ℕ) (Nf : ℕ)
    (h : ∀ i, i < Nf → bufI (idx1 i) = bufI (idx2 i)) :
    firSumI bufI coeffI idx1 Nf = firSumI bufI coeffI idx2 Nf := by
  unfold firSumI
  congr 1
  apply List.map_congr_left
  intro i hi
  rw [h i (List.mem_range.mp hi)]

/-- C2 (amended): given the same buffers, coefficients and input, the
three float strategies (double-buffer, if-modulo, modulo) of the lock-in
`proc_fir` produce identical states and outputs, and likewise the three
integer strategies; the ring-cursor bound and the buffer mirror
invariants are preserved, so the equivalence propagates along any run.
(The integer family does **not** agree with the float family: the
counterexample exhibits a gap far beyond any fixed tolerance, matching
the source comment that the integer arithmetic yields no useful
result.) -/
theorem C2_fir_strategy_equivalence (Nf : ℕ) (coeff : ℕ → ℚ) (coeffI : ℕ → ℤ)
    (st : FirState) (xn : ℚ × ℚ) (raw : ℤ × ℤ)
    (hNf : 1 ≤ Nf) (hpos : st.fir_bufPos < Nf)
    (hmF : Mirror Nf st.dataBuffer) (hmI : Mirror Nf st.dataBufferInt) :
    (proc_fir FirArith.floatIfModulo Nf coeff coeffI st xn raw =
      proc_fir FirArith.floatDoubleBuffer Nf coeff coeffI st xn raw) ∧
    (proc_fir FirArith.floatModulo Nf coeff coeffI st xn raw =
      proc_fir FirArith.floatDoubleBuffer Nf coeff coeffI st xn raw) ∧
    (proc_fir FirArith.integerIfModulo Nf coeff coeffI st xn raw =
      proc_fir FirArith.integerDoubleBuffer Nf coeff coeffI st xn raw) ∧
    (proc_fir FirArith.integerModulo Nf coeff coeffI st xn raw =
      proc_fir FirArith.integerDoubleBuffer Nf coeff coeffI st xn raw) ∧
    Mirror Nf (proc_fir FirArith.floatDoubleBuffer Nf coeff coeffI st xn raw).1.dataBuffer ∧
    Mirror Nf (proc_fir FirArith.floatDoubleBuffer Nf coeff coeffI st xn raw).1.dataBufferInt ∧
    (proc_fir FirArith.floatDoubleBuffer Nf coeff coeffI st xn raw).1.fir_bufPos < Nf := by
  have hw : Mirror Nf (firWrite st.dataBuffer st.fir_bufPos Nf xn) :=
    firWrite_mirror _ _ _ _ hpos hmF
  have hwI : Mirror Nf (firWrite st.dataBufferInt st.fir_bufPos Nf (asrP raw 2)) :=
    firWrite_mirror _ _ _ _ hpos hmI
  have hp2 : (st.fir_bufPos + 1) % Nf < Nf := Nat.mod_lt _ (by omega)
  refine ⟨?_, ?_, ?_, ?_, hw, hwI, hp2⟩
  · simp only [proc_fir]
    refine Prod.ext rfl ?_
    show firSumF _ coeff (firIdxIf ((st.fir_bufPos + 1) % Nf) Nf) Nf =
      firSumF _ coeff (firIdxDouble ((st.fir_bufPos + 1) % Nf) Nf) Nf
    apply firSumF_congr
    intro i hi
    rw [(mirror_idx Nf _ i _ hw hp2 hi).2, (mirror_idx Nf _ i _ hw hp2 hi).1]
  · simp only [proc_fir]
    refine Prod.ext rfl ?_
    show firSumF _ coeff (firIdxMod ((st.fir_bufPos + 1) % Nf) Nf) Nf =
      firSumF _ coeff (firIdxDouble ((st.fir_bufPos + 1) % Nf) Nf) Nf
    apply firSumF_congr
    intro i hi
    rw [(mirror_idx Nf _ i _ hw hp2 hi).1]
  · simp only [proc_fir]
    refine Prod.ext rfl ?_
    show pairQ (asrP (firSumI _ coeffI (firIdxIf ((st.fir_bufPos + 1) % Nf) Nf) Nf) 7) =
      pairQ (asrP (firSumI _ coeffI (firIdxDouble ((st.fir_bufPos + 1) % Nf) Nf) Nf) 7)
    rw [firSumI_congr _ coeffI _ (firIdxDouble ((st.fir_bufPos + 1) % Nf) Nf) Nf
      (fun i hi => by
        rw [(mirror_idx Nf _ i _ hwI hp2 hi).2, (mirror_idx Nf _ i _ hwI hp2 hi).1])]
  · simp only [proc_fir]
    refine Prod.ext rfl ?_
    show pairQ (asrP (firSumI _ coeffI (firIdxMod ((st.fir_bufPos + 1) % Nf) Nf) Nf) 7) =
      pairQ (asrP (firSumI _ coeffI (firIdxDouble ((st.fir_bufPos + 1) % Nf) Nf) Nf) 7)
    rw [firSumI_congr _ coeffI _ (firIdxDouble ((st.fir_bufPos + 1) % Nf) Nf) Nf
      (fun i hi => by
        rw [(mirror_idx Nf _ i _ hwI hp2 hi).1])]

/-- Witness for C2's amended equivalence: a single-tap filter on fresh
zero buffers — the if-modulo float strategy returns exactly the
double-buffer float result. -/
theorem C2_fir_strategy_equivalence_witness :
    proc_fir FirArith.floatIfModulo 1 (fun _ => 1) (fun _ => 512)
        ⟨fun _ => (0, 0), fun _ => (0, 0), 0⟩ (1, 0) (4, 0) =
      proc_fir FirArith.floatDoubleBuffer 1 (fun _ => 1) (fun _ => 512)
        ⟨fun _ => (0, 0), fun _ => (0, 0), 0⟩ (1, 0) (4, 0) :=
  (C2_fir_strategy_equivalence 1 (fun _ => 1) (fun _ => 512)
    ⟨fun _ => (0, 0), fun _ => (0, 0), 0⟩ (1, 0) (4, 0)
    (by norm_num) (by norm_num) (fun j hj => rfl) (fun j hj => rfl)).1

/-- The machine `PI` constant as an exact rational (the Arduino `PI`
macro text). -/
def piRat : ℚ := 3.1415926535897932384626433832795

/-- C2 counterexample: an `init_fir`-generated single-tap `FIRlow`
configuration (cutoff 250 Hz at 1000 Hz processing rate, rectangular
window).  On input 1 V / raw value 262144, the integer double-buffer
strategy returns 131072 (a raw-scale value) while the float
double-buffer strategy returns 1/2: the two differ by far more than any
fixed tolerance (1 LSB of the AD4020 is about 1.9e-5 V, and even a
tolerance of 1 V is exceeded).  This refutes the claim that all six
strategies agree with the float double-buffer variant within a fixed
tolerance. -/
theorem C2_counterexample :
    (proc_fir FirArith.integerDoubleBuffer 1
        (firlowCoeff (fun _ => 0) (fun _ => 0) piRat 250 1000 1 Win.rect)
        (firlowCoeffInt (fun _ => 0) (fun _ => 0) piRat 250 1000 1 Win.rect)
        ⟨fun _ => (0, 0), fun _ => (0, 0), 0⟩ (1, 0) (262144, 0)).2.1 = 131072 ∧
    (proc_fir FirArith.floatDoubleBuffer 1
        (firlowCoeff (fun _ => 0) (fun _ => 0) piRat 250 1000 1 Win.rect)
        (firlowCoeffInt (fun _ => 0) (fun _ => 0) piRat 250 1000 1 Win.rect)
        ⟨fun _ => (0, 0), fun _ => (0, 0), 0⟩ (1, 0) (262144, 0)).2.1 = 1 / 2 ∧
    ¬ |(131072 : ℚ) - 1 / 2| ≤ 1 := by
  have hc : firlowCoeff (fun _ => 0) (fun _ => 0) piRat 250 1000 1 Win.rect 0 = 1 / 2 := by
    unfold firlowCoeff Mof phiOf
    rw [if_pos rfl]
    norm_num [piRat]
  have hcI : firlowCoeffInt (fun _ => 0) (fun _ => 0) piRat 250 1000 1 Win.rect 0 = 256 := by
    unfold firlowCoeffInt Mof phiOf
    rw [if_pos rfl]
    rw [show (2 : ℚ) ^ 9 * (2 * piRat * 250 / 1000) / piRat = 256 by norm_num [piRat]]
    decide
  refine ⟨?_, ?_, ?_⟩
  · simp only [proc_fir, firSumI, show List.range 1 = [0] from rfl, List.map_cons, List.map_nil,
      List.sum_cons, List.sum_nil, firWrite, firIdxDouble, asrP, asr, Function.update_apply,
      hcI, smulPZ, pairQ]
    norm_num
    decide
  · simp only [proc_fir, firSumF, show List.range 1 = [0] from rfl, List.map_cons, List.map_nil,
      List.sum_cons, List.sum_nil, firWrite, firIdxDouble, Function.update_apply, hc, smulP]
    norm_num
  · rw [show (131072 : ℚ) - 1 / 2 = 262143 / 2 by norm_num, abs_of_pos (by norm_num)]
    norm_num

/-! ## Exercise07-11 filter engine: selection, histories, reset-on-switch

Models the filter dispatch of `readProcessOutput`, the history variables
of the individual filter headers, `resetHistory()` and the
`set filter` command handling of `checkUpdateUSB` in
`SpectralProcessingDSMV.ino`. -/

/-- Resolution of the LTC2500 (`RES_LTC2500`). -/
def RES_LTC2500 : ℚ := 0.0000011920929

/-- The filter identifiers of `SpectralProcessingDSMV.ino`
(`scaling` .. `ownDef`). -/
inductive FilterId where
  | scaling : FilterId
  | movingAvg : FilterId
  | lpf1 : FilterId
  | hpf1 : FilterId
  | bandpass : FilterId
  | bandstop : FilterId
  | FIRlow : FilterId
  | FIRhigh : FilterId
  | lpf2 : FilterId
  | lpf3 : FilterId
  | progIIR : FilterId
  | ownDef : FilterId
deriving DecidableEq

/-- All per-filter history state of the Exercise07-11 sketch: the scalar
histories of `lpf1.h`/`hpf1.h`/`lpf2.h`/`proc_lpf3.h`/`ownDef.h`, the IIR
history arrays of `iir.h`, the moving-average ring buffer of `avg.h`, and
the FIR data buffers and cached coefficients of `fir.h`. -/
structure Ex7Hist where
  yln1 : ℚ
  xhn1 : ℚ
  yhn1 : ℚ
  yl2n1 : ℚ
  yl2n2 : ℚ
  yl3n1 : ℚ
  yl3n2 : ℚ
  yl3n3 : ℚ
  ynhist : ℕ → ℚ
  xnhist : ℕ → ℚ
  dbuffer : ℤ → ℚ
  idbuffer : ℤ
  dataBuffer : ℕ → ℚ
  dataBufferInt : ℕ → ℤ
  fir_bufPos : ℕ
  filtercoeff : ℕ → ℚ
  filtercoeffInt : ℕ → ℤ
  yown1 : ℚ
  yown2 : ℚ

/-- The global filter-engine state: selected filter, the
`filterProperties` table, the global `scalingGain`, and the histories. -/
structure Ex7Sys where
  filter : FilterId
  props : FilterId → ℕ → ℚ
  scalingGain : ℚ
  hist : Ex7Hist

/-- `resetHistory()`: zeroes the one-pole/two-pole/three-pole scalar
histories and the `Niirmax = 200` entries of `ynhist`/`xnhist`.  It does
**not** touch the moving-average ring buffer, the FIR data buffers, or
the `ownDef` history. -/
def resetHistory (h : Ex7Hist) : Ex7Hist :=
  { h with yln1 := 0, xhn1 := 0, yhn1 := 0, yl2n1 := 0, yl2n2 := 0,
           yl3n1 := 0, yl3n2 := 0, yl3n3 := 0,
           ynhist := fun i => if i < 200 then 0 else h.ynhist i,
           xnhist := fun i => if i < 200 then 0 else h.xnhist i }

/-- `init_fir`'s effect on the engine state: it recomputes the cached
coefficient arrays and touches nothing else. -/
def setCoeffs (c : (ℕ → ℚ) × (ℕ → ℤ)) (h : Ex7Hist) : Ex7Hist :=
  { h with filtercoeff := c.1, filtercoeffInt := c.2 }

/-- The `set filter` command branch of `checkUpdateUSB`: selects the new
filter; calls `resetHistory()` for `lpf1`, `hpf1`, `lpf2`, `lpf3`,
`progIIR` and `ownDef`; calls `init_fir` (modelled by the coefficient
recomputation `initF`) for the four FIR filters; and performs **no**
reset for `scaling` and `movingAvg`. -/
def setFilterCmd (initF : FilterId → (FilterId → ℕ → ℚ) → (ℕ → ℚ) × (ℕ → ℤ))
    (f : FilterId) (sys : Ex7Sys) : Ex7Sys :=
  match f with
  | FilterId.scaling => { sys with filter := f }
  | FilterId.movingAvg => { sys with filter := f }
  | FilterId.lpf1 => { sys with filter := f, hist := resetHistory sys.hist }
  | FilterId.hpf1 => { sys with filter := f, hist := resetHistory sys.hist }
  | FilterId.bandpass => { sys with filter := f, hist := setCoeffs (initF f sys.props) sys.hist }
  | FilterId.bandstop => { sys with filter := f, hist := setCoeffs (initF f sys.props) sys.hist }
  | FilterId.FIRlow => { sys with filter := f, hist := setCoeffs (initF f sys.props) sys.hist }
  | FilterId.FIRhigh => { sys with filter := f, hist := setCoeffs (initF f sys.props) sys.hist }
  | FilterId.lpf2 => { sys with filter := f, hist := resetHistory sys.hist }
  | FilterId.lpf3 => { sys with filter := f, hist := resetHistory sys.hist }
  | FilterId.progIIR => { sys with filter := f, hist := resetHistory sys.hist }
  | FilterId.ownDef => { sys with filter := f, hist := resetHistory sys.hist }

/-- `proc_lpf1` of `lpf1.h`: one-pole low pass with history `yln_1`. -/
def proc_lpf1 (piQ xn p0 p5 : ℚ) (h : Ex7Hist) : ℚ × Ex7Hist :=
  (1 / (p5 / (2 * piQ * p0) + 1) * (xn + p5 / (2 * piQ * p0) * h.yln1),
   { h with yln1 := 1 / (p5 / (2 * piQ * p0) + 1) * (xn + p5 / (2 * piQ * p0) * h.yln1) })

/-- `proc_hpf1` of `hpf1.h`: one-pole high pass with histories
`yhn_1`, `xhn_1`. -/
def proc_hpf1 (piQ xn p0 p5 : ℚ) (h : Ex7Hist) : ℚ × Ex7Hist :=
  (1 / (2 * piQ * p0 / p5 + 1) * (xn + h.yhn1 - h.xhn1),
   { h with yhn1 := 1 / (2 * piQ * p0 / p5 + 1) * (xn + h.yhn1 - h.xhn1), xhn1 := xn })

/-- `proc_lpf2` of `lpf2.h`: second-order low pass with histories
`yl2n_1`, `yl2n_2`. -/
def proc_lpf2 (piQ xn p0 p5 : ℚ) (h : Ex7Hist) : ℚ × Ex7Hist :=
  (1 / (1 + 2 * (p5 / (2 * piQ * p0)) + p5 / (2 * piQ * p0) * (p5 / (2 * piQ * p0))) *
      ((2 * (p5 / (2 * piQ * p0)) + 2 * (p5 / (2 * piQ * p0)) * (p5 / (2 * piQ * p0))) * h.yl2n1 -
        p5 / (2 * piQ * p0) * (p5 / (2 * piQ * p0)) * h.yl2n2 + xn),
   { h with yl2n2 := h.yl2n1,
            yl2n1 := 1 / (1 + 2 * (p5 / (2 * piQ * p0)) +
                p5 / (2 * piQ * p0) * (p5 / (2 * piQ * p0))) *
              ((2 * (p5 / (2 * piQ * p0)) + 2 * (p5 / (2 * piQ * p0)) * (p5 / (2 * piQ * p0))) *
                  h.yl2n1 -
                p5 / (2 * piQ * p0) * (p5 / (2 * piQ * p0)) * h.yl2n2 + xn) })

/-- Value of the `fswc` prefactor of `proc_lpf3` (which reads the
processing frequency from `props[3]`). -/
def lpf3Fswc (piQ p0 p3 : ℚ) : ℚ := p3 / (2 * piQ * p0)

/-- Output of `proc_lpf3` of `proc_lpf3.h`: third-order low pass with
histories `yl3n_1..3`. -/
def lpf3Out (piQ xn p0 p3 : ℚ) (h : Ex7Hist) : ℚ :=
  1 / (1 + 3 * lpf3Fswc piQ p0 p3 + 3 * lpf3Fswc piQ p0 p3 * lpf3Fswc piQ p0 p3 +
      lpf3Fswc piQ p0 p3 * lpf3Fswc piQ p0 p3 * lpf3Fswc piQ p0 p3) *
    ((3 * lpf3Fswc piQ p0 p3 + 6 * lpf3Fswc piQ p0 p3 * lpf3Fswc piQ p0 p3 +
        3 * lpf3Fswc piQ p0 p3 * lpf3Fswc piQ p0 p3 * lpf3Fswc piQ p0 p3) * h.yl3n1 -
      (3 * lpf3Fswc piQ p0 p3 * lpf3Fswc piQ p0 p3 +
        3 * lpf3Fswc piQ p0 p3 * lpf3Fswc piQ p0 p3 * lpf3Fswc piQ p0 p3) * h.yl3n2 +
      lpf3Fswc piQ p0 p3 * lpf3Fswc piQ p0 p3 * lpf3Fswc piQ p0 p3 * h.yl3n3 + xn)

/-- `proc_lpf3` of `proc_lpf3.h`. -/
def proc_lpf3 (piQ xn p0 p3 : ℚ) (h : Ex7Hist) : ℚ × Ex7Hist :=
  (lpf3Out piQ xn p0 p3 h,
   { h with yl3n3 := h.yl3n2, yl3n2 := h.yl3n1, yl3n1 := lpf3Out piQ xn p0 p3 h })

/-- `proc_ownDef` of `ownDef.h`: the placeholder returns `xn` and shifts
its private histories. -/
def proc_ownDef (xn : ℚ) (h : Ex7Hist) : ℚ × Ex7Hist :=
  (xn, { h with yown2 := h.yown1, yown1 := xn })

/-- The programmable IIR filter applied to the engine histories (variant
of `iir.h` lines 39-62, coefficient tables supplied externally by the
`fdacoefs` header). -/
def proc_iir_ex7 (bn an : ℕ → ℚ) (Nb Na : ℕ) (xn : ℚ) (h : Ex7Hist) : ℚ × Ex7Hist :=
  ((iirV1 bn an Nb Na h.xnhist h.ynhist xn).1,
   { h with xnhist := (iirV1 bn an Nb Na h.xnhist h.ynhist xn).2.1,
            ynhist := (iirV1 bn an Nb Na h.xnhist h.ynhist xn).2.2 })

/-- The property-array moving average applied to the engine histories
(`avg.h`): store, average the last `props[0]` slots, advance the ring
cursor. -/
def proc_avg_ex7 (xn p0 : ℚ) (h : Ex7Hist) : ℚ × Ex7Hist :=
  (avgSum (Function.update h.dbuffer h.idbuffer xn) h.idbuffer (avgIters p0) / p0,
   { h with dbuffer := Function.update h.dbuffer h.idbuffer xn,
            idbuffer := avgAdvance h.idbuffer })

/-- Single-channel float FIR convolution (double-buffer access). -/
def firSumF1 (buf : ℕ → ℚ) (coeff : ℕ → ℚ) (pos Nf : ℕ) : ℚ :=
  ((List.range Nf).map (fun i => buf (pos + i) * coeff i)).sum

/-- Single-channel integer FIR convolution (double-buffer access). -/
def firSumI1 (bufI : ℕ → ℤ) (coeffI : ℕ → ℤ) (pos Nf : ℕ) : ℤ :=
  ((List.range Nf).map (fun i => bufI (pos + i) * coeffI i)).sum

/-- The single-channel `proc_fir` of the Exercise07-11 `fir.h`: writes the
mirrored sample, advances the cursor, and evaluates either the integer
path (summing the scaled raw values, shifting by 7 and converting to a
corrected voltage) or the float path; any other arithmetic value leaves
the accumulator at 0. -/
def proc_fir_ex7 (Nf : ℕ) (arith : ℤ) (gainL offL : ℚ) (xn : ℚ) (raw : ℤ)
    (h : Ex7Hist) : ℚ × Ex7Hist :=
  (if arith = 0 then
      RES_LTC2500 * ((asr (firSumI1 (firWrite h.dataBufferInt h.fir_bufPos Nf (asr raw 2))
        h.filtercoeffInt ((h.fir_bufPos + 1) % Nf) Nf) 7 : ℤ) : ℚ) * gainL + offL
    else if arith = 1 then
      firSumF1 (firWrite h.dataBuffer h.fir_bufPos Nf xn) h.filtercoeff
        ((h.fir_bufPos + 1) % Nf) Nf
    else 0,
   { h with dataBuffer := firWrite h.dataBuffer h.fir_bufPos Nf xn,
            dataBufferInt := firWrite h.dataBufferInt h.fir_bufPos Nf (asr raw 2),
            fir_bufPos := (h.fir_bufPos + 1) % Nf })

/-- Conversion of a float filter property to the `uint16_t` filter order. -/
def natOfQ (q : ℚ) : ℕ := (truncQ q).toNat

/-- The filter dispatch `switch(filter)` of `readProcessOutput`, before
the global scaling gain is applied. -/
def applyRaw (piQ : ℚ) (bn an : ℕ → ℚ) (Nb Na : ℕ) (gainL offL : ℚ)
    (sys : Ex7Sys) (x : ℚ) (raw : ℤ) : ℚ × Ex7Hist :=
  match sys.filter with
  | FilterId.scaling => (proc_scale x (sys.props FilterId.scaling 0), sys.hist)
  | FilterId.movingAvg => proc_avg_ex7 x (sys.props FilterId.movingAvg 0) sys.hist
  | FilterId.lpf1 =>
      proc_lpf1 piQ x (sys.props FilterId.lpf1 0) (sys.props FilterId.lpf1 5) sys.hist
  | FilterId.hpf1 =>
      proc_hpf1 piQ x (sys.props FilterId.hpf1 0) (sys.props FilterId.hpf1 5) sys.hist
  | FilterId.bandpass =>
      proc_fir_ex7 (natOfQ (sys.props FilterId.bandpass 2))
        (truncQ (sys.props FilterId.bandpass 4)) gainL offL x raw sys.hist
  | FilterId.bandstop =>
      proc_fir_ex7 (natOfQ (sys.props FilterId.bandstop 2))
        (truncQ (sys.props FilterId.bandstop 4)) gainL offL x raw sys.hist
  | FilterId.FIRlow =>
      proc_fir_ex7 (natOfQ (sys.props FilterId.FIRlow 2))
        (truncQ (sys.props FilterId.FIRlow 4)) gainL offL x raw sys.hist
  | FilterId.FIRhigh =>
      proc_fir_ex7 (natOfQ (sys.props FilterId.FIRhigh 2))
        (truncQ (sys.props FilterId.FIRhigh 4)) gainL offL x raw sys.hist
  | FilterId.lpf2 =>
      proc_lpf2 piQ x (sys.props FilterId.lpf2 0) (sys.props FilterId.lpf2 5) sys.hist
  | FilterId.lpf3 =>
      proc_lpf3 piQ x (sys.props FilterId.lpf3 0) (sys.props FilterId.lpf3 3) sys.hist
  | FilterId.progIIR => proc_iir_ex7 bn an Nb Na x sys.hist
  | FilterId.ownDef => proc_ownDef x sys.hist

/-- One filter application of `readProcessOutput`: the dispatch above
followed by `if(filter != scaling) outputValue *= scalingGain`. -/
def applyFilter (piQ : ℚ) (bn an : ℕ → ℚ) (Nb Na : ℕ) (gainL offL : ℚ)
    (sys : Ex7Sys) (x : ℚ) (raw : ℤ) : ℚ × Ex7Sys :=
  (if sys.filter = FilterId.scaling then (applyRaw piQ bn an Nb Na gainL offL sys x raw).1
    else (applyRaw piQ bn an Nb Na gainL offL sys x raw).1 * sys.scalingGain,
   { sys with hist := (applyRaw piQ bn an Nb Na gainL offL sys x raw).2 })

/-- Start-up history state: all history variables and buffers zero. -/
def freshHist : Ex7Hist :=
  ⟨0, 0, 0, 0, 0, 0, 0, 0, fun _ => 0, fun _ => 0, fun _ => 0, 0,
   fun _ => 0, fun _ => 0, 0, fun _ => 0, fun _ => 0, 0, 0⟩

/-- A freshly constructed engine with filter `f`: zero histories but the
same property table and scaling gain as `sys`. -/
def freshLike (f : FilterId) (sys : Ex7Sys) : Ex7Sys :=
  ⟨f, sys.props, sys.scalingGain, freshHist⟩

theorem iirV1_out_zero (bn an : ℕ → ℚ) (Nb Na : ℕ) (xh yh : ℕ → ℚ) (x : ℚ)
    (hx : ∀ i, i < 200 → xh i = 0) (hy : ∀ i, i < 200 → yh i = 0) :
    (iirV1 bn an Nb Na xh yh x).1 = bn 0 * x := by
  simp only [iirV1]
  rw [downTo_mulShift, downTo_mulShift]
  simp only
  rw [if_neg (by omega)]
  rw [Finset.sum_eq_zero (fun i hi => by
    have hm := Finset.mem_Icc.mp hi
    have hle : min 200 Nb ≤ 200 := min_le_left _ _
    rw [hx i (by omega)]; ring)]
  rw [Finset.sum_eq_zero (fun k hk => by
    have hm := Finset.mem_Icc.mp hk
    have hle : min 200 Na ≤ 200 := min_le_left _ _
    rw [hy k (by omega)]; ring)]
  rw [hy 0 (by omega)]
  ring

/-- C3 (amended): switching to any of `lpf1`, `hpf1`, `lpf2`, `lpf3`,
`progIIR` or `ownDef` calls `resetHistory()`, so the first output of the
newly selected filter equals the first output of a freshly constructed
engine with the same configuration; but switching to `scaling` or
`movingAvg` performs no reset at all (the entire history state, including
the moving-average ring buffer, is retained verbatim), and switching to a
FIR filter recomputes the cached coefficients while retaining the FIR
data buffers, the ring cursors and the moving-average buffer.  History
therefore leaks across switches for `MovingAverage` and the FIR variants,
as the counterexample shows. -/
theorem C3_reset_on_switch (piQ : ℚ) (bn an : ℕ → ℚ) (Nb Na : ℕ) (gainL offL : ℚ)
    (initF : FilterId → (FilterId → ℕ → ℚ) → (ℕ → ℚ) × (ℕ → ℤ))
    (sys : Ex7Sys) (x : ℚ) (raw : ℤ) :
    ((applyFilter piQ bn an Nb Na gainL offL (setFilterCmd initF FilterId.lpf1 sys) x raw).1 =
      (applyFilter piQ bn an Nb Na gainL offL (freshLike FilterId.lpf1 sys) x raw).1) ∧
    ((applyFilter piQ bn an Nb Na gainL offL (setFilterCmd initF FilterId.hpf1 sys) x raw).1 =
      (applyFilter piQ bn an Nb Na gainL offL (freshLike FilterId.hpf1 sys) x raw).1) ∧
    ((applyFilter piQ bn an Nb Na gainL offL (setFilterCmd initF FilterId.lpf2 sys) x raw).1 =
      (applyFilter piQ bn an Nb Na gainL offL (freshLike FilterId.lpf2 sys) x raw).1) ∧
    ((applyFilter piQ bn an Nb Na gainL offL (setFilterCmd initF FilterId.lpf3 sys) x raw).1 =
      (applyFilter piQ bn an Nb Na gainL offL (freshLike FilterId.lpf3 sys) x raw).1) ∧
    ((applyFilter piQ bn an Nb Na gainL offL (setFilterCmd initF FilterId.progIIR sys) x raw).1 =
      (applyFilter piQ bn an Nb Na gainL offL (freshLike FilterId.progIIR sys) x raw).1) ∧
    ((applyFilter piQ bn an Nb Na gainL offL (setFilterCmd initF FilterId.ownDef sys) x raw).1 =
      (applyFilter piQ bn an Nb Na gainL offL (freshLike FilterId.ownDef sys) x raw).1) ∧
    ((setFilterCmd initF FilterId.scaling sys).hist = sys.hist) ∧
    ((setFilterCmd initF FilterId.movingAvg sys).hist = sys.hist) ∧
    ((setFilterCmd initF FilterId.FIRlow sys).hist.dataBuffer = sys.hist.dataBuffer ∧
      (setFilterCmd initF FilterId.FIRlow sys).hist.dataBufferInt = sys.hist.dataBufferInt ∧
      (setFilterCmd initF FilterId.FIRlow sys).hist.fir_bufPos = sys.hist.fir_bufPos ∧
      (setFilterCmd initF FilterId.FIRlow sys).hist.dbuffer = sys.hist.dbuffer) := by
  refine ⟨?_, ?_, ?_, ?_, ?_, ?_, rfl, rfl, rfl, rfl, rfl, rfl⟩
  · simp [applyFilter, applyRaw, setFilterCmd, proc_lpf1, resetHistory, freshLike, freshHist]
  · simp [applyFilter, applyRaw, setFilterCmd, proc_hpf1, resetHistory, freshLike, freshHist]
  · simp [applyFilter, applyRaw, setFilterCmd, proc_lpf2, resetHistory, freshLike, freshHist]
  · simp [applyFilter, applyRaw, setFilterCmd, proc_lpf3, lpf3Out, resetHistory, freshLike,
      freshHist]
  · simp only [applyFilter, applyRaw, setFilterCmd, proc_iir_ex7, freshLike]
    rw [if_neg (by decide), if_neg (by decide)]
    rw [iirV1_out_zero bn an Nb Na _ _ x
        (fun i hi => by simp [resetHistory, hi]) (fun i hi => by simp [resetHistory, hi]),
      iirV1_out_zero bn an Nb Na freshHist.xnhist freshHist.ynhist x
        (fun i _ => rfl) (fun i _ => rfl)]
  · simp [applyFilter, applyRaw, setFilterCmd, proc_ownDef, resetHistory, freshLike, freshHist]

/-- The property table of the counterexample scenario: `movingAvg` set to
average over 2 samples. -/
def exProps : FilterId → ℕ → ℚ := fun f k =>
  if f = FilterId.movingAvg ∧ k = 0 then 2 else 0

/-- A trivial coefficient recomputation (the FIR path is not exercised by
the counterexample). -/
def initF0 : FilterId → (FilterId → ℕ → ℚ) → (ℕ → ℚ) × (ℕ → ℤ) :=
  fun _ _ => (fun _ => 0, fun _ => 0)

/-- C3 counterexample: moving average over 2 samples.  A fresh engine fed
the input 1 outputs 1/2; feeding 1, switching to `Scaling`, switching
back to `MovingAverage`, and feeding 1 again outputs 1 — the ring buffer
still holds the first sample, so the first output after the switch-back
differs from a freshly constructed moving average on the same input.
This refutes the claim that switching the filter clears all per-filter
history for every filter kind. -/
theorem C3_counterexample :
    (applyFilter piRat (fun _ => 0) (fun _ => 0) 1 1 1 0
        ⟨FilterId.movingAvg, exProps, 1, freshHist⟩ 1 0).1 = 1 / 2 ∧
    (applyFilter piRat (fun _ => 0) (fun _ => 0) 1 1 1 0
        (setFilterCmd initF0 FilterId.movingAvg (setFilterCmd initF0 FilterId.scaling
          (applyFilter piRat (fun _ => 0) (fun _ => 0) 1 1 1 0
            ⟨FilterId.movingAvg, exProps, 1, freshHist⟩ 1 0).2)) 1 0).1 = 1 ∧
    (1 : ℚ) ≠ 1 / 2 := by
  have hIter : avgIters 2 = 2 := by
    rw [avgIters, if_neg (by norm_num), show ⌈(2 : ℚ)⌉ = 2 by norm_num]
    rfl
  have hp : exProps FilterId.movingAvg 0 = 2 := by simp [exProps]
  have hRange : List.range 2 = [0, 1] := rfl
  have hAdv : avgAdvance 0 = 1 := by decide
  refine ⟨?_, ?_, by norm_num⟩
  · simp only [applyFilter, applyRaw, proc_avg_ex7, hp, hIter, avgSum, hRange,
      List.map_cons, List.map_nil, List.sum_cons, List.sum_nil, freshHist]
    rw [if_neg (by decide)]
    norm_num [avgIdx, avgNmax, Function.update_apply]
  · simp only [applyFilter, applyRaw, setFilterCmd, proc_avg_ex7, hp, hIter, avgSum, hRange,
      List.map_cons, List.map_nil, List.sum_cons, List.sum_nil, freshHist]
    rw [if_neg (by decide)]
    norm_num [hAdv, avgIdx, avgNmax, Function.update_apply]

end DSMV
